import Mathlib

/-!
Verification development for the document-store transaction and query adapter
(`src/server/mongo/src/storage.ts`).

The adapter sits between a class-hierarchy-aware object model and a document
database.  We shallowly embed the parts of `storage.ts` that the verified
properties exercise: the query translator (`translateQuery`, `translateKey`,
`checkMixinKey`, `translateLikeQuery`), the fast/slow path decision of
`findAll`, the transaction bulk translator (`updateBulk` and its per-kind
branches), the per-domain bulk assembly of `tx`, `uploadDocuments`, and the
change-hash iterator (`find`).

JavaScript records (documents, query filters, Mongo update documents) are
embedded as the inductive type `Value`, whose `ocons` chains model JS objects
(ordered key/value fields, assignment updating in place or appending) and
whose `acons` chains model JS arrays.  External collaborators (the class
hierarchy, the hash function, bson size estimation) are parameters.
-/

namespace Storage

/-- A JSON-like runtime value.  JS objects are `ocons key val rest` chains
terminated by `onil` (field order is significant, as in JS); arrays are
`acons head rest` chains terminated by `anil`. -/
inductive Value where
  | vnull : Value
  | vstr (s : String) : Value
  | vint (n : Int) : Value
  | vbool (b : Bool) : Value
  | onil : Value
  | ocons (key : String) (val : Value) (rest : Value) : Value
  | anil : Value
  | acons (head : Value) (rest : Value) : Value
deriving DecidableEq, Repr

/-- A document / JS record: an object-shaped `Value`. -/
abbrev Doc := Value

/-- Property read `o[key]`: `none` models JS `undefined`. -/
def getField : Value → String → Option Value
  | .ocons k v r, key => if k = key then some v else getField r key
  | _, _ => none

/-- Property assignment `o[key] = v`: updates an existing key in place,
otherwise appends (JS insertion-order semantics).  On a non-object the
result is a fresh one-field object (our uses only assign into objects). -/
def setField : Value → String → Value → Value
  | .ocons k v r, key, nv => if k = key then .ocons k nv r else .ocons k v (setField r key nv)
  | _, key, nv => .ocons key nv .onil

/-- Property deletion `delete o[key]`. -/
def removeField : Value → String → Value
  | .ocons k v r, key => if k = key then removeField r key else .ocons k v (removeField r key)
  | v, _ => v

/-- `Object.keys(o)`. -/
def objKeys : Value → List String
  | .ocons k _ r => k :: objKeys r
  | _ => []

/-- Number of own fields of a JS object. -/
def fieldCount : Value → Nat
  | .ocons _ _ r => fieldCount r + 1
  | _ => 0

/-- `Object.keys(o)[0]`. -/
def firstKey : Value → Option String
  | .ocons k _ _ => some k
  | _ => none

/-- Build an object from an ordered field list. -/
def objOf : List (String × Value) → Value
  | [] => .onil
  | (k, v) :: rest => .ocons k v (objOf rest)

/-- Build an array value from a list. -/
def arrOf : List Value → Value
  | [] => .anil
  | v :: rest => .acons v (arrOf rest)

/-- The list underlying an array value. -/
def arrElems : Value → List Value
  | .acons h r => h :: arrElems r
  | _ => []

/-- JS spread `{ ...a, ...b }`: assign all fields of `b` over `a`. -/
def spreadMerge (a : Value) : Value → Value
  | .ocons k v r => spreadMerge (setField a k v) r
  | _ => a

/-- An array of string values (used for `$in` / `$nin` class lists). -/
def vstrList (l : List String) : Value := arrOf (l.map .vstr)

/-- Whether a string value equal to `s` occurs in an array value. -/
def arrHasStr (v : Value) (s : String) : Bool :=
  (arrElems v).contains (.vstr s)

/-- Splits a character list at every occurrence of `sep` (JS
`String.prototype.split` with a single-character separator: empty segments
are preserved). -/
def splitOnCharAux (sep : Char) : List Char → List Char → List (List Char)
  | [], acc => [acc.reverse]
  | c :: rest, acc =>
      if c = sep then acc.reverse :: splitOnCharAux sep rest []
      else splitOnCharAux sep rest (c :: acc)

def splitOnChar (sep : Char) (cs : List Char) : List (List Char) :=
  splitOnCharAux sep cs []

/-- `s.split(sep)` for a one-character separator, as strings. -/
def splitString (sep : Char) (s : String) : List String :=
  (splitOnChar sep s.data).map String.mk

/-- `s.startsWith(pre)`. -/
def jsStartsWith (s pre : String) : Bool :=
  pre.data.isPrefixOf s.data

/-- `s.includes(sub)` for the strings we inspect. -/
def listInfix (sub cs : List Char) : Bool :=
  match cs with
  | [] => sub.isEmpty
  | _ :: rest => sub.isPrefixOf cs || listInfix sub rest

def jsIncludes (s sub : String) : Bool :=
  listInfix sub.data s.data

/-- `s.endsWith(suf)`. -/
def jsEndsWith (s suf : String) : Bool :=
  suf.data.reverse.isPrefixOf s.data.reverse

/-! ## `$like` compilation (`translateLikeQuery`, storage.ts 1718-1726)

`escapeLikeForRegexp` lives in `@hcengineering/core`, outside `src/`.
Modelled from the spec: "escaping all literal regex metacharacters in the
non-wildcard segments" — a backslash is inserted before every regex
metacharacter. -/

/-- The regex metacharacters escaped by the like-pattern compiler. -/
def regexMetaChars : List Char :=
  ['.', '*', '+', '?', '^', '$', '\x7b', '\x7d', '(', ')', '|', '[', ']', '\\']

/-- The character-level escaping loop. -/
def escGo : List Char → List Char
  | [] => []
  | c :: rest =>
      if regexMetaChars.contains c then '\\' :: c :: escGo rest
      else c :: escGo rest

/-- Modelled from the spec: `escapeLikeForRegexp` (imported from the core
package, not under `src/`) escapes every regex metacharacter of its argument
with a backslash. -/
def escapeLikeForRegexp (s : String) : String :=
  String.mk (escGo s.data)

/-- `list.join(sep)` for strings. -/
def joinWith (sep : String) : List String → String
  | [] => ""
  | [s] => s
  | s :: rest => s ++ sep ++ joinWith sep rest

/-- The non-wildcard segments of a like pattern (`pattern.split('%')`). -/
def likeSegs (pattern : String) : List (List Char) :=
  splitOnChar '%' pattern.data

/-- storage.ts 1718-1726: compile a `$like` pattern into an anchored
case-insensitive regex condition
`{ $regex: '^' + segments-escaped-joined-by-'.*' + '$', $options: 'i' }`. -/
def translateLikeQuery (pattern : String) : Value :=
  objOf
    [("$regex", .vstr ("^" ++ joinWith ".*" ((splitString '%' pattern).map escapeLikeForRegexp) ++ "$")),
     ("$options", .vstr "i")]

/-- Case-insensitive character-list equality (the `'i'` regex option). -/
def ciEq (a b : List Char) : Bool :=
  a.map Char.toLower == b.map Char.toLower

/-- Modelled from the spec: the denotation of the tail `.*seg1.*seg2...segN$`
of the compiled pattern — each `.*` absorbs an arbitrary prefix of the
remaining input, each segment matches literally (case-insensitively, segments
being metacharacter-escaped), and the final segment must end the input. -/
def likeMatchAfter : List (List Char) → List Char → Bool
  | [], cs => cs.isEmpty
  | [seg], cs =>
      (List.range (cs.length + 1)).any (fun k => ciEq seg (cs.drop k))
  | seg :: rest, cs =>
      (List.range (cs.length + 1)).any
        (fun k =>
          ciEq seg ((cs.drop k).take seg.length) &&
          likeMatchAfter rest ((cs.drop k).drop seg.length))

/-- Modelled from the spec: the denotation of the full anchored pattern
`^seg0.*seg1...segN$` produced by `translateLikeQuery`. -/
def likeMatch (segs : List (List Char)) (cs : List Char) : Bool :=
  match segs with
  | [] => cs.isEmpty
  | [seg] => ciEq seg cs
  | seg :: rest => ciEq seg (cs.take seg.length) && likeMatchAfter rest (cs.drop seg.length)

/-- Whether the compiled pattern for `pattern` matches the string `s`. -/
def likeMatches (pattern : String) (s : String) : Bool :=
  likeMatch (likeSegs pattern) s.data

/-- Undo the escaping: drop the backslash inserted before each escaped
character. -/
def unescapeRegexp : List Char → List Char
  | [] => []
  | c :: rest =>
      if c = '\\' then
        match rest with
        | [] => []
        | c2 :: rest2 => c2 :: unescapeRegexp rest2
      else c :: unescapeRegexp rest

/-- Every metacharacter occurrence is consumed by a preceding backslash, so
the compiled segments denote their literal text. -/
def allEscaped : List Char → Bool
  | [] => true
  | c :: rest =>
      if c = '\\' then
        match rest with
        | [] => false
        | _ :: rest2 => allEscaped rest2
      else !regexMetaChars.contains c && allEscaped rest

/-! ## Class hierarchy collaborator

The hierarchy is an external read-only authority (`@hcengineering/core`);
the adapter only calls the operations below, so it is embedded as a record
of functions. -/

structure Attribute where
  attributeOf : String
  typeClass : String
deriving DecidableEq, Repr

structure Hierarchy where
  getDomain : String → String
  findDomain : String → Option String
  getBaseClass : String → String
  getDescendants : String → List String
  isMixin : String → Bool
  findAttribute : String → String → Option Attribute

/-- `core.class.Doc`, the universal root class. -/
def coreDoc : String := "core:class:Doc"

/-- `core.class.EnumOf`, the type tag of enumerated attributes. -/
def coreEnumOf : String := "core:class:EnumOf"

/-- Sort directions; a `SortingRules` object has JS `typeof === 'object'` and
is carried opaquely (only its object-ness drives the embedded decisions). -/
inductive SortVal where
  | asc : SortVal
  | desc : SortVal
  | rules (r : Value) : SortVal
deriving DecidableEq, Repr

structure FindOpts where
  lookup : Option Value := none
  sort : Option (List (String × SortVal)) := none
  limit : Option Nat := none
  projection : Option (List (String × Bool)) := none
  total : Bool := false
  skipSpace : Bool := false
  skipClass : Bool := false
  domain : Option String := none

/-! ## Key/path translation (`checkMixinKey`, `translateKey`) -/

/-- `Set.add` on the mixin-reference accumulator. -/
def addMixin (mixins : List String) (m : String) : List String :=
  if mixins.contains m then mixins else mixins ++ [m]

/-- storage.ts 627-641: a dot-free key whose attribute is owned by a mixin
class is rewritten to `mixinClassRef.key`; the mixin is recorded.  A key that
already contains a dot is returned unchanged (the idempotence guard). -/
def checkMixinKey (h : Hierarchy) (key : String) (clazz : String)
    (mixins : List String) : String × List String :=
  if jsIncludes key "." then (key, mixins)
  else
    match h.findAttribute clazz key with
    | some attr =>
        if h.isMixin attr.attributeOf then
          (attr.attributeOf ++ "." ++ key, addMixin mixins attr.attributeOf)
        else (key, mixins)
    | none => (key, mixins)

/-- The loop body of `translateKey` (storage.ts 597-613), recursing over the
dot-separated segments.  `first` is true on the first iteration (`i = 0`);
a `$lookup` segment consumes the following segment (`arr[++i]`, the JS
`undefined` out-of-bounds read becoming the string "undefined"). -/
def translateKeyLoop (h : Hierarchy) (clazz : String) :
    List String → String → Bool → List String → Bool → String × Bool × List String
  | [], tKey, lookup, mixins, _ => (tKey, lookup, mixins)
  | "$lookup" :: [], tKey, _, mixins, _ =>
      let tKey1 := tKey ++ "undefined" ++ "_lookup"
      let (tKey2, mixins2) := checkMixinKey h tKey1 clazz mixins
      (tKey2, true, mixins2)
  | "$lookup" :: nxt :: rest, tKey, _, mixins, _ =>
      let tKey1 := tKey ++ nxt ++ "_lookup"
      let (tKey2, mixins2) := checkMixinKey h tKey1 clazz mixins
      translateKeyLoop h clazz rest tKey2 true mixins2 false
  | el :: rest, tKey, lookup, mixins, first =>
      let tKey1 := if !jsEndsWith tKey "." && !first then tKey ++ "." else tKey
      let tKey2 := tKey1 ++ el ++ (if rest.isEmpty then "" else ".")
      let (tKey3, mixins2) := checkMixinKey h tKey2 clazz mixins
      translateKeyLoop h clazz rest tKey3 lookup mixins2 false

/-- storage.ts 588-616: translate a dotted logical field path to a native
path, classifying whether it targets a joined (`$lookup`) sub-document and
accumulating referenced mixin classes. -/
def translateKey (h : Hierarchy) (key : String) (clazz : String)
    (mixins : List String) : String × Bool × List String :=
  let arr := (splitString '.' key).filter (fun p => p ≠ "")
  translateKeyLoop h clazz arr "" false mixins true

/-! ## Query translation (`translateQuery`, storage.ts 187-260) -/

/-- The `$like` rewriting of a single query value: an object value whose
first key is `$like` is compiled via `translateLikeQuery` (the `as string`
cast defaulting to "" off the string-valued case). -/
def translateQueryValue (value : Value) : Value :=
  match value with
  | .ocons k v _ =>
      if k = "$like" then
        translateLikeQuery (match v with
          | .vstr s => s
          | _ => "")
      else value
  | _ => value

/-- The per-key loop of `translateQuery`: translate the key, rewrite `$like`
values, and route the condition into the base or the lookup filter. -/
def translateQueryLoop (h : Hierarchy) (clazz : String) :
    Value → Value → Value → List String → Value × Value × List String
  | .ocons key value rest, base, lookupF, mixins =>
      let (tkey, isLookup, mixins2) := translateKey h key clazz mixins
      if isLookup then
        translateQueryLoop h clazz rest base (setField lookupF tkey (translateQueryValue value)) mixins2
      else
        translateQueryLoop h clazz rest (setField base tkey (translateQueryValue value)) lookupF mixins2
  | _, base, lookupF, mixins => (base, lookupF, mixins)

/-- Extract the string elements of an array value. -/
def arrStrs (v : Value) : List String :=
  (arrElems v).filterMap (fun c => match c with
    | .vstr s => some s
    | _ => none)

/-- Whether a value is a JS array (`Array.isArray`). -/
def isArrayV : Value → Bool
  | .anil => true
  | .acons _ _ => true
  | _ => false

/-- Whether a value has JS `typeof === 'object'` and is not `null`
(plain objects and arrays). -/
def isObjectV : Value → Bool
  | .onil => true
  | .ocons _ _ _ => true
  | .anil => true
  | .acons _ _ => true
  | _ => false

/-- `list.length === 1 ? list[0] : { $in: list }`. -/
def classListValue (desc : List String) : Value :=
  match desc with
  | [c] => .vstr c
  | _ => objOf [("$in", vstrList desc)]

/-- storage.ts 222-244: narrow the `_class` condition of the translated base
filter to `classes`, the concrete (non-mixin) descendants of the base class:
inject an `$in` when absent, replace an out-of-set single value, and
intersect/subtract an `$in`/`$nin` object. -/
def narrowClass (h : Hierarchy) (classes : List String) (base : Value) : Value :=
  match getField base "_class" with
  | none => setField base "_class" (objOf [("$in", vstrList classes)])
  | some (.vstr s) =>
      if classes.contains s then base
      else setField base "_class" (classListValue classes)
  | some v =>
      if isObjectV v then
        let desc1 := match getField v "$in" with
          | some ar => if isArrayV ar then (arrStrs ar).filter (fun c => classes.contains c) else classes
          | none => classes
        let desc2 := match getField v "$nin" with
          | some ar =>
              if isArrayV ar then
                let nins := arrStrs ar
                desc1.filter (fun c => !nins.contains c)
              else desc1
          | none => desc1
        let desc := desc2.filter (fun c => !h.isMixin c)
        setField base "_class" (classListValue desc)
      else base

/-- storage.ts 256-258: collapse a one-element `$in` (without `$nin`) to the
single class value. -/
def collapseSingleIn (base : Value) : Value :=
  match getField base "_class" with
  | some v =>
      match getField v "$in" with
      | some ar =>
          if getField v "$nin" = none then
            match arrElems ar with
            | [x] => setField base "_class" x
            | _ => base
          else base
      | none => base
  | none => base

/-- storage.ts 187-260: translate a hierarchy-aware query into a base filter
and a lookup filter, scoping it to the concrete descendant classes of the
base class unless `skipClass` is set, and adding a mixin-presence guard when
the target class is a mixin not already referenced by some translated key. -/
def translateQuery (h : Hierarchy) (clazz : String) (query : Value)
    (opts : Option FindOpts) : Value × Value :=
  let (base0, lookupF, mixins) := translateQueryLoop h clazz query .onil .onil []
  let base1 := if (opts.map (·.skipSpace)).getD false then removeField base0 "space" else base0
  if (opts.map (·.skipClass)).getD false then
    (removeField base1 "_class", lookupF)
  else
    let baseClass := h.getBaseClass clazz
    if baseClass ≠ coreDoc then
      let classes := (h.getDescendants baseClass).filter (fun it => !h.isMixin it)
      let base2 := narrowClass h classes base1
      let base3 :=
        if baseClass ≠ clazz && !mixins.contains clazz then
          setField base2 clazz (objOf [("$exists", .vbool true)])
        else base2
      (collapseSingleIn base3, lookupF)
    else
      (collapseSingleIn (removeField base1 "_class"), lookupF)

/-! ## The fast/slow path decision of `findAll` (storage.ts 700-723) -/

/-- storage.ts 95-100: whether the query filter references a joined field. -/
def isLookupQuery (query : Value) : Bool :=
  (objKeys query).any (fun k => jsIncludes k "$lookup.")

/-- storage.ts 102-108: whether the sort references a joined field. -/
def isLookupSort (sort : Option (List (String × SortVal))) : Bool :=
  match sort with
  | none => false
  | some s => s.any (fun kv => jsIncludes kv.1 "$lookup.")

/-- storage.ts 669-674: whether some sort entry is a custom-rules object. -/
def isRulesSort (opts : Option FindOpts) : Bool :=
  match opts.bind (·.sort) with
  | none => false
  | some s => s.any (fun kv => match kv.2 with
      | .rules _ => true
      | _ => false)

/-- storage.ts 654-659: whether some sort key is an enum-typed attribute. -/
def isEnumSort (h : Hierarchy) (clazz : String) (opts : Option FindOpts) : Bool :=
  match opts.bind (·.sort) with
  | none => false
  | some s => s.any (fun kv => match h.findAttribute clazz kv.1 with
      | some attr => attr.typeClass = coreEnumOf
      | none => false)

/-- storage.ts 717-723: `findAll` delegates to `findWithPipeline` exactly
when options are present and request a lookup, an enum sort, or a rules
sort.  The query itself is not consulted. -/
def usesPipeline (h : Hierarchy) (clazz : String) (_query : Value)
    (opts : Option FindOpts) : Bool :=
  match opts with
  | none => false
  | some o => o.lookup.isSome || isEnumSort h clazz (some o) || isRulesSort (some o)

/-- The spec's wording of the path decision (§4.5): slow path iff the query
touches a joined field, the sort touches a joined field, the sort has a
custom-rules field, or some sort key is enum-typed.  Stated for comparison
with `usesPipeline`. -/
def specPipelineCond (h : Hierarchy) (clazz : String) (query : Value)
    (opts : Option FindOpts) : Bool :=
  isLookupQuery query || isLookupSort (opts.bind (·.sort)) ||
    isRulesSort opts || isEnumSort h clazz opts

/-! ## Native filter semantics

The document database evaluates the translated filters; we embed the
fragment of its matching semantics that the translated filters use
(equality, `$in`, `$nin`, `$ne`, `$exists`).  A condition object whose
first key starts with `$` is an operator condition. -/

/-- Resolve a dotted field path inside a document. -/
def getPath (doc : Value) : List String → Option Value
  | [] => some doc
  | k :: rest =>
      match getField doc k with
      | some v => getPath v rest
      | none => none

/-- The value of a (possibly dotted) filter key in a document. -/
def fieldByKey (doc : Value) (key : String) : Option Value :=
  getPath doc (splitString '.' key)

/-- Whether a condition value is an operator object. -/
def condIsOperator : Value → Bool
  | .ocons k _ _ => jsStartsWith k "$"
  | _ => false

/-- Equality matching; a `null` condition also matches a missing field. -/
def eqMatch (fieldVal : Option Value) (v : Value) : Bool :=
  match v with
  | .vnull => fieldVal = none || fieldVal = some .vnull
  | _ => fieldVal = some v

/-- Conjunction of the operator entries of an operator condition.
Operators outside the embedded fragment match nothing (none of the
verified properties evaluates them against a store). -/
def matchOps (fieldVal : Option Value) : Value → Bool
  | .ocons op arg rest =>
      (match op with
        | "$in" =>
            (match fieldVal with
              | some v => (arrElems arg).contains v
              | none => (arrElems arg).contains .vnull)
        | "$nin" =>
            !(match fieldVal with
              | some v => (arrElems arg).contains v
              | none => (arrElems arg).contains .vnull)
        | "$ne" => !eqMatch fieldVal arg
        | "$exists" =>
            (match arg with
              | .vbool false => fieldVal.isNone
              | _ => fieldVal.isSome)
        | _ => false) &&
      matchOps fieldVal rest
  | _ => true

/-- Whether a document satisfies one filter entry. -/
def matchesCond (doc : Value) (key : String) (cond : Value) : Bool :=
  if condIsOperator cond then matchOps (fieldByKey doc key) cond
  else eqMatch (fieldByKey doc key) cond

/-- Whether a document satisfies every entry of a filter object. -/
def matchesFilter (filter : Value) (doc : Value) : Bool :=
  match filter with
  | .ocons k cond rest => matchesCond doc k cond && matchesFilter rest doc
  | _ => true

/-! ## `stripHash` and the fast path of `findAll` -/

/-- storage.ts 884-898: remove the private digest field from a document. -/
def stripHashDoc (doc : Value) : Value := removeField doc "%hash%"

/-- storage.ts 835-858 (`collectSort`): native sort keys for the fast path;
each key goes through `checkMixinKey`, a rules-object direction falls into
the descending branch of `=== Ascending ? 1 : -1`.  `true` is ascending. -/
def collectSort (h : Hierarchy) (clazz : String)
    (opts : Option FindOpts) : Option (List (String × Bool)) :=
  match opts.bind (·.sort) with
  | none => none
  | some s =>
      let keys := s.map (fun kv =>
        ((checkMixinKey h kv.1 clazz []).1,
         match kv.2 with
         | .asc => true
         | _ => false))
      if keys.isEmpty then none else some keys

/-- Total order on values standing for the native sort order (null before
numbers before strings before objects before arrays before booleans,
mirroring BSON type ranking for the shapes the adapter stores). -/
def valueRank : Value → Nat
  | .vnull => 0
  | .vint _ => 1
  | .vstr _ => 2
  | .onil => 3
  | .ocons _ _ _ => 3
  | .anil => 4
  | .acons _ _ => 4
  | .vbool _ => 5

def cmpValue : Value → Value → Ordering
  | .vint a, .vint b => compare a b
  | .vstr a, .vstr b => compare a b
  | .vbool a, .vbool b => compare a b
  | .ocons k1 v1 r1, .ocons k2 v2 r2 =>
      (compare k1 k2).then ((cmpValue v1 v2).then (cmpValue r1 r2))
  | .acons h1 r1, .acons h2 r2 => (cmpValue h1 h2).then (cmpValue r1 r2)
  | a, b => compare (valueRank a) (valueRank b)

/-- Field comparison for sorting: a missing field sorts first. -/
def cmpFieldOpt : Option Value → Option Value → Ordering
  | none, none => .eq
  | none, some _ => .lt
  | some _, none => .gt
  | some a, some b => cmpValue a b

/-- Compare two documents under an ordered sort-key list. -/
def cmpDocs (keys : List (String × Bool)) (a b : Value) : Ordering :=
  match keys with
  | [] => .eq
  | (k, asc) :: rest =>
      let c := cmpFieldOpt (fieldByKey a k) (fieldByKey b k)
      let c := if asc then c else c.swap
      match c with
      | .eq => cmpDocs rest a b
      | o => o

/-- Stable insertion preserving the relative order of equal elements. -/
def insertSorted (cmp : Value → Value → Ordering) (x : Value) :
    List Value → List Value
  | [] => [x]
  | y :: rest =>
      if cmp y x ≠ .gt then y :: insertSorted cmp x rest
      else x :: y :: rest

def sortDocs (cmp : Value → Value → Ordering) (docs : List Value) : List Value :=
  docs.foldl (fun acc d => insertSorted cmp d acc) []

/-- Inclusion/exclusion projection on top-level fields (the embedded store
uses flat projections; `_id` is always kept on inclusion). -/
def applyProjection (proj : List (String × Bool)) (doc : Value) : Value :=
  if proj.any (fun kv => kv.2) then
    match doc with
    | .ocons k v rest =>
        if k = "_id" || proj.contains (k, true) then
          .ocons k v (applyProjection proj rest)
        else applyProjection proj rest
    | d => d
  else
    match doc with
    | .ocons k v rest =>
        if proj.contains (k, false) then applyProjection proj rest
        else .ocons k v (applyProjection proj rest)
    | d => d

def applyProjectionOpt (h : Hierarchy) (clazz : String)
    (opts : Option FindOpts) (doc : Value) : Value :=
  match opts.bind (·.projection) with
  | none => doc
  | some proj =>
      applyProjection (proj.map (fun kv => ((checkMixinKey h kv.1 clazz []).1, kv.2))) doc

/-- Modelled from the spec: `matchQuery` (imported from the core package)
re-validates a point lookup in process — "exact+class-match re-validated
in-process since a point lookup by id bypasses the class filter".  The
document's class must be a descendant of the query class and the raw query
conditions must hold. -/
def matchQueryModel (h : Hierarchy) (clazz : String) (query : Value)
    (doc : Value) : Bool :=
  (match getField doc "_class" with
    | some (.vstr c) => (h.getDescendants clazz).contains c
    | _ => false) &&
  matchesFilter query doc

/-- storage.ts 724-812: the fast path of `findAll` over the documents of the
target domain.  A limit-1 or literal-id query takes the point-lookup branch
(the id lookup re-validated via `matchQuery`); otherwise a cursor scan with
native sort, limit and projection.  Results are digest-stripped. -/
def findAllFast (h : Hierarchy) (store : List Value) (clazz : String)
    (query : Value) (opts : Option FindOpts) : List Value :=
  let tq := translateQuery h clazz query opts
  let fQuery := spreadMerge tq.1 tq.2
  if (opts.bind (·.limit)) = some 1 ||
      (match getField query "_id" with
        | some (.vstr _) => true
        | _ => false) then
    let res := match getField fQuery "_id" with
      | some (.vstr i) =>
          match store.find? (fun d => getField d "_id" == some (Value.vstr i)) with
          | some doc => if matchQueryModel h clazz query doc then [doc] else []
          | none => []
      | _ =>
          match store.find? (matchesFilter fQuery) with
          | some doc => [doc]
          | none => []
    (res.map (applyProjectionOpt h clazz opts)).map stripHashDoc
  else
    let docs0 := store.filter (matchesFilter fQuery)
    let docs1 := match collectSort h clazz opts with
      | some keys => sortDocs (cmpDocs keys) docs0
      | none => docs0
    let docs2 := match opts.bind (·.limit) with
      | some l => docs1.take l
      | none => docs1
    (docs2.map (applyProjectionOpt h clazz opts)).map stripHashDoc

/-! ## Transactions and the Operation Bulk (storage.ts 1082-1515)

JavaScript exceptions (`TypeError` on property access of `undefined`) are
modelled with `Except`; log output (`console.error`) is collected as a list
of strings. -/

inductive WriteOp where
  | insertOne (document : Value) : WriteOp
  | updateOne (filter : Value) (update : Value) : WriteOp
  | deleteOne (filter : Value) : WriteOp
  | replaceOne (filter : Value) (replacement : Value) (upsert : Bool) : WriteOp
deriving DecidableEq, Repr

/-- A deferred raw `findOneAndUpdate` call (storage.ts 1462-1478). -/
structure RawOp where
  domain : String
  objectId : String
  update : Value
deriving DecidableEq, Repr

/-- storage.ts 1082-1092: the per-domain, per-call accumulator.  (`bulks` is
initialized to 1 and never read; it is omitted.)  `update` is a JS `Map`
(insertion-ordered, `set` replacing in place). -/
structure OperationBulk where
  add : List Value
  update : List (String × Value)
  bulkOperations : List WriteOp
  findUpdate : List String
  raw : List RawOp
deriving DecidableEq, Repr

def emptyBulk : OperationBulk := ⟨[], [], [], [], []⟩

def mapGet (m : List (String × Value)) (k : String) : Option Value :=
  (m.find? (fun e => e.1 == k)).map (·.2)

def mapSet : List (String × Value) → String → Value → List (String × Value)
  | [], k, v => [(k, v)]
  | (k1, v1) :: rest, k, v =>
      if k1 = k then (k1, v) :: rest else (k1, v1) :: mapSet rest k v

def setAdd (s : List String) (x : String) : List String :=
  if s.contains x then s else s ++ [x]

/-- The mutation transactions of the object model.  `collectionCUD` carries
its nested transaction (with the nested transaction's own provenance),
`applyIf` the conditional-apply kind skipped by the translator, and `other`
stands for any unknown transaction class. -/
inductive TxData where
  | createDoc (objectId objectClass : String) (attributes : Value) : TxData
  | updateDoc (objectId objectClass : String) (operations : Value) (retrieve : Bool) : TxData
  | removeDoc (objectId objectClass : String) : TxData
  | mixinTx (objectId objectClass mixin : String) (attributes : Value) : TxData
  | collectionCUD (objectId objectClass collection : String)
      (nestedBy : String) (nestedOn : Int) (nested : TxData) : TxData
  | applyIf : TxData
  | other (cls : String) : TxData
deriving DecidableEq, Repr

structure Tx where
  modifiedBy : String
  modifiedOn : Int
  data : TxData
deriving DecidableEq, Repr

/-- Modelled from the spec: `isOperator` (imported from the core package) —
attributes are in operator form when they are a non-empty record all of
whose keys are `$`-operators ("either a flat attribute patch or an operator
form"). -/
def isOperator (o : Value) : Bool :=
  match o with
  | .ocons _ _ _ => (objKeys o).all (fun k => jsStartsWith k "$")
  | _ => false

/-- Modelled from the spec: `TxProcessor.createDoc2Doc` — "materialize the
full document" from a create transaction: its attributes plus identity and
provenance fields.  (Space/createdOn bookkeeping fields are outside every
verified property and omitted.) -/
def createDoc2Doc (objectId objectClass : String) (attributes : Value)
    (mb : String) (mo : Int) : Value :=
  setField (setField (setField (setField (spreadMerge .onil attributes)
    "_id" (.vstr objectId)) "_class" (.vstr objectClass))
    "modifiedBy" (.vstr mb)) "modifiedOn" (.vint mo)

/-- storage.ts 91-93: `{ ...doc, '%hash%': null }`. -/
def translateDoc (doc : Value) : Value :=
  setField (spreadMerge .onil doc) "%hash%" .vnull

/-- storage.ts 1378-1381: a create transaction appends the materialized,
digest-nulled document to the insert list. -/
def txCreateDoc (bulk : OperationBulk) (objectId objectClass : String)
    (attributes : Value) (mb : String) (mo : Int) : OperationBulk :=
  { bulk with add := bulk.add ++ [translateDoc (createDoc2Doc objectId objectClass attributes mb mo)] }

/-- storage.ts 1307-1309: a remove transaction appends a delete-by-id op. -/
def txRemoveDoc (bulk : OperationBulk) (objectId : String) : OperationBulk :=
  { bulk with bulkOperations := bulk.bulkOperations ++ [.deleteOne (objOf [("_id", .vstr objectId)])] }

/-- The sentinel marker attribute injected for an empty mixin patch
(storage.ts 1370-1374). -/
def sentinelMixin (mixin : String) : Value :=
  .ocons (mixin ++ "." ++ "__mixin") (.vstr "true") .onil

/-- Whether `Object.entries(v)` is non-empty (JS gives `[]` on
non-objects). -/
def hasEntries : Value → Bool
  | .ocons _ _ _ => true
  | _ => false

/-- storage.ts 1358-1376 (`translateMixinAttrs`): namespace-prefix every
non-operator key under the mixin, recurse into operator payloads, and
inject the sentinel marker when the patch has no entries. -/
def tmaGo (mixin : String) : Value → Value
  | .ocons k v rest =>
      if jsStartsWith k "$" then
        .ocons k (if hasEntries v then tmaGo mixin v else sentinelMixin mixin) (tmaGo mixin rest)
      else .ocons (mixin ++ "." ++ k) v (tmaGo mixin rest)
  | _ => .onil

def translateMixinAttrs (mixin : String) (attributes : Value) : Value :=
  if hasEntries attributes then tmaGo mixin attributes else sentinelMixin mixin

/-- storage.ts 1311-1356 (`txMixin`).  In the `$move` branch the source
computes `arr = tx.mixin + '.' + Object.keys(keyval)[0]` and then reads
`keyval[arr]` — the descriptor is looked up under the *prefixed* name, which
is not a key of `keyval`, so the subsequent `desc.$value` access is a
`TypeError` (modelled as `.error`). -/
def txMixin (bulk : OperationBulk) (objectId mixin : String)
    (attributes : Value) (mb : String) (mo : Int) : Except String OperationBulk :=
  let filter := objOf [("_id", .vstr objectId)]
  let modifyOp := objOf [("modifiedBy", .vstr mb), ("modifiedOn", .vint mo)]
  if isOperator attributes then
    match firstKey attributes with
    | some "$move" =>
        let keyval := (getField attributes "$move").getD .vnull
        match firstKey keyval with
        | none => .error "TypeError: cannot read properties of undefined (reading $value)"
        | some k0 =>
            let arr := mixin ++ "." ++ k0
            match getField keyval arr with
            | none => .error "TypeError: cannot read properties of undefined (reading $value)"
            | some desc =>
                let v := (getField desc "$value").getD .vnull
                let p := (getField desc "$position").getD .vnull
                .ok { bulk with bulkOperations := bulk.bulkOperations ++
                  [ .updateOne filter (objOf [("$pull", objOf [(arr, v)])]),
                    .updateOne filter (objOf
                      [("$set", modifyOp),
                       ("$push", objOf [(arr, objOf [("$each", arrOf [v]), ("$position", p)])])]) ] }
    | _ =>
        let update := setField (spreadMerge .onil (translateMixinAttrs mixin attributes))
          "$set" (spreadMerge .onil modifyOp)
        .ok { bulk with bulkOperations := bulk.bulkOperations ++ [.updateOne filter update] }
  else
    let update := spreadMerge (spreadMerge .onil (translateMixinAttrs mixin attributes)) modifyOp
    let upd := (mapGet bulk.update objectId).getD .onil
    .ok { bulk with update := mapSet bulk.update objectId (spreadMerge upd update) }

/-- Prefix every key of a record (`Object.entries(..).map([pre + k, v])`). -/
def prefixKeys (pre : String) : Value → Value
  | .ocons k v rest => .ocons (pre ++ k) v (prefixKeys pre rest)
  | _ => .onil

/-- storage.ts 1383-1515 (`txUpdateDoc`). -/
def txUpdateDoc (h : Hierarchy) (bulk : OperationBulk)
    (objectId objectClass : String) (operations : Value) (retrieve : Bool)
    (mb : String) (mo : Int) : Except String OperationBulk :=
  let idFilter := objOf [("_id", .vstr objectId)]
  if isOperator operations then
    match firstKey operations with
    | some "$move" =>
        let keyval := (getField operations "$move").getD .vnull
        match firstKey keyval with
        | none => .error "TypeError: cannot read properties of undefined (reading $value)"
        | some arr =>
            let desc := (getField keyval arr).getD .vnull
            let v := (getField desc "$value").getD .vnull
            let p := (getField desc "$position").getD .vnull
            .ok { bulk with bulkOperations := bulk.bulkOperations ++
              [ .updateOne idFilter (objOf
                  [("$set", objOf [("%hash%", .vnull)]),
                   ("$pull", objOf [(arr, v)])]),
                .updateOne idFilter (objOf
                  [("$set", objOf [("modifiedBy", .vstr mb), ("modifiedOn", .vint mo), ("%hash%", .vnull)]),
                   ("$push", objOf [(arr, objOf [("$each", arrOf [v]), ("$position", p)])])]) ] }
    | some "$update" =>
        let keyval := (getField operations "$update").getD .vnull
        match firstKey keyval with
        | none => .error "TypeError: cannot read properties of undefined (reading $query)"
        | some arr =>
            let desc := (getField keyval arr).getD .vnull
            match getField desc "$query", getField desc "$update" with
            | some q, some u =>
                .ok { bulk with bulkOperations := bulk.bulkOperations ++
                  [ .updateOne (spreadMerge (objOf [("_id", .vstr objectId)]) (prefixKeys (arr ++ ".") q))
                      (objOf [("$set", setField (prefixKeys (arr ++ ".$.") u) "%hash%" .vnull)]),
                    .updateOne idFilter (objOf
                      [("$set", objOf [("modifiedBy", .vstr mb), ("modifiedOn", .vint mo), ("%hash%", .vnull)])]) ] }
            | _, _ => .error "TypeError: Object.entries called on undefined"
    | _ =>
        let upd := setField (spreadMerge .onil operations) "$set"
          (objOf [("modifiedBy", .vstr mb), ("modifiedOn", .vint mo), ("%hash%", .vnull)])
        if retrieve then
          .ok { bulk with raw := bulk.raw ++ [⟨h.getDomain objectClass, objectId, upd⟩] }
        else
          .ok { bulk with bulkOperations := bulk.bulkOperations ++ [.updateOne idFilter upd] }
  else
    let update := setField (setField (setField (spreadMerge .onil operations)
      "modifiedBy" (.vstr mb)) "modifiedOn" (.vint mo)) "%hash%" .vnull
    let upd := (mapGet bulk.update objectId).getD .onil
    let bulk1 := { bulk with update := mapSet bulk.update objectId (spreadMerge upd update) }
    if retrieve then
      .ok { bulk1 with findUpdate := setAdd bulk1.findUpdate objectId }
    else .ok bulk1

/-- storage.ts 1099-1122 and 1287-1305 (`updateBulk`, `txCollectionCUD`):
dispatch on the transaction kind.  `TxApplyIf` is skipped silently; an
unknown kind is logged (the collected string list) and skipped. -/
def updateBulkData (h : Hierarchy) (bulk : OperationBulk) (mb : String) (mo : Int) :
    TxData → Except String OperationBulk × List String
  | .createDoc objectId objectClass attributes =>
      (.ok (txCreateDoc bulk objectId objectClass attributes mb mo), [])
  | .updateDoc objectId objectClass operations retrieve =>
      (txUpdateDoc h bulk objectId objectClass operations retrieve mb mo, [])
  | .removeDoc objectId _ => (.ok (txRemoveDoc bulk objectId), [])
  | .mixinTx objectId _ mixin attributes =>
      (txMixin bulk objectId mixin attributes mb mo, [])
  | .collectionCUD objectId objectClass collection nestedBy nestedOn nested =>
      (match nested with
        | .createDoc nid ncls nattrs =>
            let attrs2 := setField (setField (setField (spreadMerge .onil nattrs)
              "attachedTo" (.vstr objectId)) "attachedToClass" (.vstr objectClass))
              "collection" (.vstr collection)
            (.ok (txCreateDoc bulk nid ncls attrs2 nestedBy nestedOn), [])
        | _ => updateBulkData h bulk nestedBy nestedOn nested)
  | .applyIf => (.ok bulk, [])
  | .other cls => (.ok bulk, ["Unknown/Unsupported operation: " ++ cls])

def updateBulk (h : Hierarchy) (bulk : OperationBulk) (t : Tx) :
    Except String OperationBulk × List String :=
  updateBulkData h bulk t.modifiedBy t.modifiedOn t.data

/-- Fold `updateBulk` over a transaction list (an uncaught JS exception
aborts the batch). -/
def processTxes (h : Hierarchy) (bulk : OperationBulk) :
    List Tx → Except String OperationBulk × List String
  | [] => (.ok bulk, [])
  | t :: rest =>
      match updateBulk h bulk t with
      | (.error e, logs) => (.error e, logs)
      | (.ok b2, logs) =>
          let (r, logs2) := processTxes h b2 rest
          (r, logs ++ logs2)

/-! ## Per-domain assembly and flush (storage.ts 1124-1285) -/

/-- The domain a transaction is grouped under (storage.ts 1176-1181):
CUD transactions by `findDomain(objectClass)`, everything else `none`. -/
def txDomain (h : Hierarchy) (t : Tx) : Option String :=
  match t.data with
  | .createDoc _ cls _ => h.findDomain cls
  | .updateDoc _ cls _ _ => h.findDomain cls
  | .removeDoc _ cls => h.findDomain cls
  | .mixinTx _ cls _ _ => h.findDomain cls
  | .collectionCUD _ cls _ _ _ _ => h.findDomain cls
  | .applyIf => none
  | .other _ => none

/-- Modelled from the spec: `groupByArray` (core util) — groups in
first-seen key order, each group preserving input order. -/
def addToGroup (groups : List (Option String × List Tx)) (k : Option String)
    (t : Tx) : List (Option String × List Tx) :=
  match groups with
  | [] => [(k, [t])]
  | (k1, ts) :: rest =>
      if k1 = k then (k1, ts ++ [t]) :: rest
      else (k1, ts) :: addToGroup rest k t

def groupByDomain (h : Hierarchy) (txes : List Tx) :
    List (Option String × List Tx) :=
  txes.foldl (fun groups t => addToGroup groups (txDomain h t) t) []

/-- storage.ts 1210-1238: assemble the per-domain native op list — inserts,
then the coalesced update map as `updateOne` entries, then the explicit
bulk operations. -/
def assembleOps (b : OperationBulk) : List WriteOp :=
  (if b.add.length > 0 then b.add.map .insertOne else []) ++
  (if b.update.length > 0 then
    b.update.map (fun it => WriteOp.updateOne (objOf [("_id", .vstr it.1)]) (objOf [("$set", it.2)]))
   else []) ++
  (if b.bulkOperations.length > 0 then b.bulkOperations else [])

/-- storage.ts 1200-1208: the all-empty bulk that is skipped. -/
def isEmptyBulk (b : OperationBulk) : Bool :=
  b.add.isEmpty && b.update.isEmpty && b.bulkOperations.isEmpty &&
    b.findUpdate.isEmpty && b.raw.isEmpty

/-- The per-domain outcome of one `tx` call: the batched write ops handed to
`pushBulk` (empty ⇒ no write call), the ids to re-fetch after the flush, and
the deferred raw calls. -/
structure DomainRun where
  domain : String
  ops : List WriteOp
  findUpdateIds : List String
  rawOps : List RawOp
deriving DecidableEq, Repr

/-- storage.ts 1172-1285 (`tx`): group the batch by domain, translate each
group into an Operation Bulk, and assemble the per-domain runs in group
order. -/
def txRun (h : Hierarchy) (txes : List Tx) : Except String (List DomainRun) :=
  let groups := groupByDomain h txes
  groups.foldl
    (fun acc g =>
      match acc with
      | .error e => .error e
      | .ok runs =>
          match g.1 with
          | none => .ok runs
          | some dom =>
              match (processTxes h emptyBulk g.2).1 with
              | .error e => .error e
              | .ok b =>
                  if isEmptyBulk b then .ok runs
                  else .ok (runs ++ [⟨dom, assembleOps b, b.findUpdate, b.raw⟩]))
    (.ok [])

/-- storage.ts 1124-1170 (`pushBulk` / `_pushBulk`): with an initially empty
pending map, each domain with a non-empty assembled op list is dispatched as
exactly one batched `bulkWrite` call. -/
def writeCalls (h : Hierarchy) (txes : List Tx) :
    Except String (List (String × List WriteOp)) :=
  match txRun h txes with
  | .error e => .error e
  | .ok runs => .ok (runs.filterMap (fun r =>
      if r.ops.isEmpty then none else some (r.domain, r.ops)))

/-! ## `uploadDocuments` (storage.ts 1614-1639) -/

def chunksOfAux (n : Nat) : Nat → List Value → List (List Value)
  | 0, _ => []
  | _, [] => []
  | fuel + 1, l => l.take n :: chunksOfAux n fuel (l.drop n)

/-- The `splice(0, n)` chunking loop of `uploadDocuments`. -/
def chunksOf (n : Nat) (l : List Value) : List (List Value) :=
  chunksOfAux n l.length l

/-- JS `Number.prototype.toString(16)`. -/
def natToHex (n : Nat) : String :=
  String.mk (Nat.toDigits 16 n)

/-- storage.ts 1614-1639: bulk upsert in batches of 500.  The incoming
digest is read off the document, the document is stored without it, and the
replacement carries `%hash% = null` when the incoming digest was
null/absent, else `digest|sizeHex` with the bson size of the digest-free
document.  `calculateObjectSize` (bson library) is the `sizeOf` parameter.
(Digest values are strings or null by construction; other shapes do not
occur.) -/
def uploadDocuments (sizeOf : Value → Nat) (docs : List Value) : List (List WriteOp) :=
  (chunksOf 500 docs).map (fun part => part.map (fun it =>
    let digest := getField it "%hash%"
    let it2 := removeField it "%hash%"
    let size := sizeOf it2
    let newDigest : Value :=
      match digest with
      | none => .vnull
      | some .vnull => .vnull
      | some (.vstr s) => .vstr (s ++ "|" ++ natToHex size)
      | some _ => .vstr ("|" ++ natToHex size)
    WriteOp.replaceOne (objOf [("_id", (getField it2 "_id").getD .vnull)])
      (setField (spreadMerge .onil it2) "%hash%" newDigest) true))

/-! ## The change-hash iterator (`find`, storage.ts 900-999) -/

/-- The stored digest string of a document, when present. -/
def digestStrOf (d : Value) : Option String :=
  match getField d "%hash%" with
  | some (.vstr s) => some s
  | _ => none

/-- Phase-1 membership: `{ '%hash%': { $nin: ['', null] } }` — a present,
non-empty, non-null digest (digest values are strings or null by
construction). -/
def isHashed (d : Value) : Bool :=
  match getField d "%hash%" with
  | some (.vstr s) => s ≠ ""
  | _ => false

def hexDigitVal (c : Char) : Option Nat :=
  if '0' ≤ c ∧ c ≤ '9' then some (c.toNat - '0'.toNat)
  else if 'a' ≤ c ∧ c ≤ 'f' then some (c.toNat - 'a'.toNat + 10)
  else if 'A' ≤ c ∧ c ≤ 'F' then some (c.toNat - 'A'.toNat + 10)
  else none

def parseHexAux : List Char → Nat → Nat
  | [], acc => acc
  | c :: rest, acc =>
      match hexDigitVal c with
      | some d => parseHexAux rest (acc * 16 + d)
      | none => acc

/-- JS `parseInt(s, 16)` on the stored hex sizes (a leading non-digit gives
NaN in JS; the embedded value is 0 there, a case no stored digest
produces). -/
def parseIntHex (s : String) : Nat :=
  parseHexAux s.data 0

structure ChangeRecord where
  id : Value
  hash : String
  size : Nat
deriving DecidableEq, Repr

/-- `digest.indexOf('|')`. -/
def idxOf (c : Char) : List Char → Option Nat
  | [] => none
  | x :: rest => if x = c then some 0 else (idxOf c rest).map (· + 1)

/-- storage.ts 957, 981-987: the record of a hashed document is parsed from
the stored `hash|sizeHex` digest (`hash = digest.slice(0, pos)`,
`size = parseInt(digest.slice(pos + 1), 16)`; with no `'|'` the JS slices
give the string minus its last character and the whole string). -/
def parseDigestRecord (id : Value) (digest : String) : ChangeRecord :=
  match idxOf '|' digest.data with
  | some pos => ⟨id, String.mk (digest.data.take pos),
      parseIntHex (String.mk (digest.data.drop (pos + 1)))⟩
  | none => ⟨id, String.mk digest.data.dropLast, parseIntHex digest⟩

/-- `bulkUpdate.set` (JS `Map`: replace in place or append). -/
def bufSet : List (Value × String) → Value → String → List (Value × String)
  | [], k, v => [(k, v)]
  | (k1, v1) :: rest, k, v =>
      if k1 = k then (k1, v) :: rest else (k1, v1) :: bufSet rest k v

structure IterResult where
  records : List ChangeRecord
  flushBatches : List (List (Value × String))
deriving DecidableEq, Repr

/-- Processing one non-hashed document (storage.ts 958-980): estimate the
size and hash of the digest-free document, buffer the write-back entry, and
flush the buffer when it exceeds 1000 entries (`bulkUpdate.size > 1000`). -/
def iterStep (hashFn : Value → String) (sizeFn : Value → Nat)
    (st : List (Value × String) × List (List (Value × String)) × List ChangeRecord)
    (d : Value) :
    List (Value × String) × List (List (Value × String)) × List ChangeRecord :=
  let d2 := removeField d "%hash%"
  let size := sizeFn d2
  let digest := hashFn d2
  let id := (getField d2 "_id").getD .vnull
  let buf := bufSet st.1 id (digest ++ "|" ++ natToHex size)
  let recs := st.2.2 ++ [⟨id, digest, size⟩]
  if buf.length > 1000 then ([], st.2.1 ++ [buf], recs)
  else (buf, st.2.1, recs)

/-- storage.ts 900-999 (`find`): the two-phase change-hash iterator, run to
exhaustion and closed.  With `recheck` every non-null digest is first
invalidated.  Phase 1 yields parsed records for hashed documents (buffering
nothing); phase 2 computes fresh records, buffering write-back entries that
are flushed once the buffer exceeds 1000 entries and unconditionally on
close.  `hashFn`/`sizeFn` stand for the external sha256/`estimateDocSize`. -/
def runFindIter (hashFn : Value → String) (sizeFn : Value → Nat)
    (docs : List Value) (recheck : Bool) : IterResult :=
  let docs2 := if recheck then
      docs.map (fun d =>
        match getField d "%hash%" with
        | some v => if v ≠ .vnull then setField d "%hash%" .vnull else d
        | none => d)
    else docs
  let phase1 := docs2.filter isHashed
  let phase2 := docs2.filter (fun d => !isHashed d)
  let recs1 := phase1.map (fun d =>
    parseDigestRecord ((getField d "_id").getD .vnull) ((digestStrOf d).getD ""))
  let st := phase2.foldl (iterStep hashFn sizeFn) ([], [], [])
  let batches := if st.1.isEmpty then st.2.1 else st.2.1 ++ [st.1]
  ⟨recs1 ++ st.2.2, batches⟩

/-! ## Native write-op application semantics

The fragment of the database's update semantics the verified properties
evaluate: dotted `$set` (creating intermediate objects, failing on a
non-object intermediate), `$pull` of a value (removing every equal element)
and `$push` with `$each`/`$position` (inserting at the position, appending
past the end). -/

def setPath (doc : Value) : List String → Value → Option Value
  | [], v => some v
  | [k], v => some (setField doc k v)
  | k :: k2 :: rest, v =>
      let sub := match getField doc k with
        | some s => s
        | none => .onil
      if hasEntries sub || sub == .onil then
        (setPath sub (k2 :: rest) v).map (fun s2 => setField doc k s2)
      else none

/-- Apply a `$set` payload: each entry assigns along its dotted path. -/
def applySetEntries (patch : Value) (doc : Value) : Option Value :=
  match patch with
  | .ocons k v rest =>
      match setPath doc (splitString '.' k) v with
      | some d2 => applySetEntries rest d2
      | none => none
  | _ => some doc

/-- `$pull` of a literal value removes every equal array element. -/
def pullAll (xs : List Value) (v : Value) : List Value :=
  xs.filter (fun x => !(x == v))

/-- `$push` with `$each: [v], $position: p` inserts at index `p` (append
when `p` is past the end). -/
def pushAt (xs : List Value) (v : Value) (p : Nat) : List Value :=
  xs.take p ++ [v] ++ xs.drop p

/-- `insertOne` recognizer (for counting assembled batch entries). -/
def isInsertOp : WriteOp → Bool
  | .insertOne _ => true
  | _ => false

/-- `updateOne` recognizer. -/
def isUpdateOneOp : WriteOp → Bool
  | .updateOne _ _ => true
  | _ => false

/-! ## Concrete fixtures used by the scenario theorems -/

/-- A flat hierarchy: every class is its own base class with itself as sole
descendant; one domain `"d"`. -/
def h0 : Hierarchy :=
  { getDomain := fun _ => "d"
    findDomain := fun _ => some "d"
    getBaseClass := fun c => c
    getDescendants := fun c => [c]
    isMixin := fun _ => false
    findAttribute := fun _ _ => none }

/-- The scenario hierarchy of C3/C6: class `B` descends from `A`, both
concrete, both in domain `"d"`. -/
def hAB : Hierarchy :=
  { getDomain := fun _ => "d"
    findDomain := fun _ => some "d"
    getBaseClass := fun c => c
    getDescendants := fun c => if c = "A" then ["A", "B"] else [c]
    isMixin := fun _ => false
    findAttribute := fun _ _ => none }

/-- A hierarchy whose classes have the universal root as base class (the
`getBaseClass` of a query class can be `core.class.Doc`), with concrete
classes `B` and `C` below it. -/
def hRoot : Hierarchy :=
  { getDomain := fun _ => "d"
    findDomain := fun _ => some "d"
    getBaseClass := fun _ => coreDoc
    getDescendants := fun c => if c = coreDoc then [coreDoc, "B", "C"] else [c]
    isMixin := fun _ => false
    findAttribute := fun _ _ => none }

/-- The coalesced-map payload of a flat update (the body of `txUpdateDoc`'s
non-operator branch): `{ ...tx.operations, modifiedBy, modifiedOn,
'%hash%': null }`. -/
def flatUpdatePayload (ops : Value) (mb : String) (mo : Int) : Value :=
  setField (setField (setField (spreadMerge .onil ops)
    "modifiedBy" (.vstr mb)) "modifiedOn" (.vint mo)) "%hash%" .vnull

/-- The coalesced-map payload of a flat mixin-apply (`txMixin`'s
non-operator branch): `{ ...translateMixinAttrs(mixin, attrs), modifiedBy,
modifiedOn }` — no digest reset. -/
def mixinFlatPayload (mixin : String) (attrs : Value) (mb : String) (mo : Int) : Value :=
  spreadMerge (spreadMerge .onil (translateMixinAttrs mixin attrs))
    (objOf [("modifiedBy", .vstr mb), ("modifiedOn", .vint mo)])

/-- The update document of a generic operator-form update:
`{ ...tx.operations, $set: { modifiedBy, modifiedOn, '%hash%': null } }`. -/
def operUpdatePayload (ops : Value) (mb : String) (mo : Int) : Value :=
  setField (spreadMerge .onil ops) "$set"
    (objOf [("modifiedBy", .vstr mb), ("modifiedOn", .vint mo), ("%hash%", .vnull)])

/-- The update document of a mixin operator-form apply:
`{ ...translateMixinAttrs(mixin, attrs), $set: { modifiedBy, modifiedOn } }`
— no digest reset. -/
def mixinOperPayload (mixin : String) (attrs : Value) (mb : String) (mo : Int) : Value :=
  setField (spreadMerge .onil (translateMixinAttrs mixin attrs)) "$set"
    (spreadMerge .onil (objOf [("modifiedBy", .vstr mb), ("modifiedOn", .vint mo)]))

/-- Whether a transaction is a create. -/
def isCreateTx (t : Tx) : Bool :=
  match t.data with
  | .createDoc _ _ _ => true
  | _ => false

/-- The target id of a flat (non-operator, non-retrieve) update. -/
def flatUpdId (t : Tx) : Option String :=
  match t.data with
  | .updateDoc i _ ops r => if !isOperator ops && !r then some i else none
  | _ => none

/-- The transaction shapes of the C6 scenario batch. -/
def isC6Simple (t : Tx) : Bool :=
  isCreateTx t || (flatUpdId t).isSome

/-- The C6 scenario batch: 3 creates and 2 flat updates on distinct
pre-existing ids, all in one domain. -/
def txC6 : List Tx :=
  [ ⟨"u", 1, .createDoc "c1" "A" .onil⟩,
    ⟨"u", 2, .createDoc "c2" "A" .onil⟩,
    ⟨"u", 3, .createDoc "c3" "A" .onil⟩,
    ⟨"u", 4, .updateDoc "x1" "A" (objOf [("n", .vint 1)]) false⟩,
    ⟨"u", 5, .updateDoc "x2" "A" (objOf [("n", .vint 2)]) false⟩ ]

/-- The id under which a processed document is buffered (`d._id` after the
digest deletion). -/
def iterDocId (d : Value) : Value :=
  (getField (removeField d "%hash%") "_id").getD .vnull

/-- The buffered write-back entry of a non-hashed document:
`(id, hash|sizeHex)` over the digest-free document. -/
def iterEntry (hashFn : Value → String) (sizeFn : Value → Nat) (d : Value) :
    Value × String :=
  (iterDocId d,
    hashFn (removeField d "%hash%") ++ "|" ++ natToHex (sizeFn (removeField d "%hash%")))

/-- The yielded record of a non-hashed document. -/
def iterRecord (hashFn : Value → String) (sizeFn : Value → Nat) (d : Value) :
    ChangeRecord :=
  ⟨iterDocId d, hashFn (removeField d "%hash%"), sizeFn (removeField d "%hash%")⟩

/-- A digest-less document with integer id `i` (C9 scenario). -/
def mkDocC9 (i : Nat) : Value := objOf [("_id", .vint (Int.ofNat i))]

/-- Scenario documents. -/
def dA : Value := objOf [("_id", .vstr "1"), ("_class", .vstr "A")]

def dB : Value := objOf [("_id", .vstr "2"), ("_class", .vstr "B")]

def dC : Value := objOf [("_id", .vstr "3"), ("_class", .vstr "C")]

end Storage

namespace Storage

/-! # Shared lemmas -/

theorem getField_setField_self (a : Value) (k : String) (v : Value) :
    getField (setField a k v) k = some v := by
  induction a with
  | ocons k1 v1 r ihv ihr =>
      by_cases h : k1 = k
      · subst h; simp [setField, getField]
      · simp [setField, getField, h, ihr]
  | acons hd tl ihh iht => simp [setField, getField]
  | _ => simp [setField, getField]

theorem getField_setField_ne (a : Value) (k k2 : String) (v : Value)
    (h : k ≠ k2) : getField (setField a k2 v) k = getField a k := by
  induction a with
  | ocons k1 v1 r ihv ihr =>
      by_cases h1 : k1 = k2
      · subst h1
        simp only [setField, if_pos rfl, getField]
        have : ¬k1 = k := fun hh => h (hh ▸ rfl)
        simp [this]
      · simp only [setField, if_neg h1, getField]
        by_cases h2 : k1 = k
        · simp [h2]
        · simp [h2, ihr]
  | acons hd tl ihh iht =>
      simp only [setField, getField]
      have : ¬k2 = k := fun hh => h hh.symm
      simp [this]
  | _ =>
      simp only [setField, getField]
      have : ¬k2 = k := fun hh => h hh.symm
      simp [this]

theorem getField_removeField_self (a : Value) (k : String) :
    getField (removeField a k) k = none := by
  induction a with
  | ocons k1 v1 r ihv ihr =>
      by_cases h : k1 = k
      · subst h; simp [removeField, ihr]
      · simp [removeField, h, getField, ihr]
  | acons hd tl ihh iht => simp [removeField, getField]
  | _ => simp [removeField, getField]

theorem getField_removeField_ne (a : Value) (k k2 : String) (h : k ≠ k2) :
    getField (removeField a k2) k = getField a k := by
  induction a with
  | ocons k1 v1 r ihv ihr =>
      by_cases h1 : k1 = k2
      · subst h1
        simp only [removeField, if_pos rfl, getField]
        have : ¬k1 = k := fun hh => h (hh ▸ rfl)
        simp [this, ihr]
      · simp only [removeField, if_neg h1, getField]
        by_cases h2 : k1 = k
        · simp [h2]
        · simp [h2, ihr]
  | acons hd tl ihh iht => simp [removeField]
  | _ => simp [removeField]

/-- Fields untouched by a key-disjoint spread survive it. -/
theorem getField_spreadMerge_of_not_mem (a b : Value) (k : String)
    (h : k ∉ objKeys b) : getField (spreadMerge a b) k = getField a k := by
  induction b generalizing a with
  | ocons k1 v1 r ihv ihr =>
      simp only [objKeys, List.mem_cons, not_or] at h
      simp only [spreadMerge]
      rw [ihr _ h.2]
      exact getField_setField_ne a k k1 v1 h.1
  | acons hd tl ihh iht => simp [spreadMerge]
  | _ => simp [spreadMerge]

theorem objKeys_setField (a : Value) (k : String) (v : Value) :
    objKeys (setField a k v) =
      if k ∈ objKeys a then objKeys a else objKeys a ++ [k] := by
  induction a with
  | ocons k1 v1 r ihv ihr =>
      by_cases h : k1 = k
      · subst h; simp [setField, objKeys]
      · have h3 : ¬k = k1 := fun hh => h hh.symm
        simp only [setField, if_neg h, objKeys, ihr, List.mem_cons]
        by_cases h2 : k ∈ objKeys r
        · simp [h2, h3]
        · simp [h2, h3]
  | acons hd tl ihh iht => simp [setField, objKeys]
  | _ => simp [setField, objKeys]

theorem nodup_objKeys_setField (a : Value) (k : String) (v : Value)
    (h : (objKeys a).Nodup) : (objKeys (setField a k v)).Nodup := by
  rw [objKeys_setField]
  by_cases h2 : k ∈ objKeys a
  · simpa [h2]
  · simpa [h2, List.nodup_append] using h

theorem nodup_objKeys_spreadMerge (a b : Value)
    (h : (objKeys a).Nodup) : (objKeys (spreadMerge a b)).Nodup := by
  induction b generalizing a with
  | ocons k1 v1 r ihv ihr => exact ihr _ (nodup_objKeys_setField _ _ _ h)
  | acons hd tl ihh iht => simpa [spreadMerge]
  | _ => simpa [spreadMerge]

/-- A field of a duplicate-free record survives spreading the record over
any base. -/
theorem getField_spreadMerge_of_nodup (a b : Value) (k : String) (v : Value)
    (hn : (objKeys b).Nodup) (h : getField b k = some v) :
    getField (spreadMerge a b) k = some v := by
  induction b generalizing a with
  | ocons k1 v1 r ihv ihr =>
      simp only [objKeys, List.nodup_cons] at hn
      by_cases hk : k1 = k
      · subst hk
        have h1 : v1 = v := by simpa [getField] using h
        subst h1
        simp only [spreadMerge]
        rw [getField_spreadMerge_of_not_mem _ _ _ hn.1]
        exact getField_setField_self a k1 v1
      · have h2 : getField r k = some v := by simpa [getField, hk] using h
        simp only [spreadMerge]
        exact ihr _ hn.2 h2
  | acons hd tl ihh iht => simp [getField] at h
  | _ => simp [getField] at h

/-- A string containing a character another lacks differs from it. -/
theorem str_ne_of_char (s t : String) (c : Char) (hs : c ∈ s.data)
    (ht : c ∉ t.data) : s ≠ t := by
  intro h
  subst h
  exact ht hs

/-- The escaping loop is faithful: unescaping recovers the input and every
metacharacter occurrence ends up escaped. -/
theorem escGo_faithful (cs : List Char) :
    unescapeRegexp (escGo cs) = cs ∧ allEscaped (escGo cs) = true := by
  induction cs with
  | nil => simp [escGo, unescapeRegexp, allEscaped]
  | cons c rest ih =>
      by_cases h : c ∈ regexMetaChars
      · simp [escGo, h, unescapeRegexp, allEscaped, ih]
      · have hbs : ¬c = '\\' := by
          intro hh
          subst hh
          exact h (by decide)
        have hbf : regexMetaChars.contains c = false := by simpa using h
        refine ⟨?_, ?_⟩
        · rw [escGo, hbf, if_neg (by simp), unescapeRegexp.eq_def]
          simp only [if_neg hbs, ih.1]
        · rw [escGo, hbf, if_neg (by simp), allEscaped.eq_def]
          simp only [if_neg hbs, ih.2]
          simp [hbf]
          exact h

/-- C8: for every `$like` filter value the compiled pattern is anchored
(`^...$`) and case-insensitive (`$options: 'i'`), with every regex
metacharacter of the non-wildcard segments escaped literally (unescaping the
escaped segments recovers the literal text, and every metacharacter
occurrence is preceded by a backslash); the pattern `"te%st"` matches
`"test"` and `"teXXXst"` (and, case-insensitively, `"TEST"`) but not
`"Xtest"`. -/
theorem c8_like_pattern_anchored_ci :
    (∀ p : String,
      getField (translateLikeQuery p) "$options" = some (.vstr "i") ∧
      getField (translateLikeQuery p) "$regex" =
        some (.vstr ("^" ++ joinWith ".*" ((splitString '%' p).map escapeLikeForRegexp) ++ "$"))) ∧
    (∀ s : String,
      unescapeRegexp (escapeLikeForRegexp s).data = s.data ∧
      allEscaped (escapeLikeForRegexp s).data = true) ∧
    likeMatches "te%st" "test" = true ∧
    likeMatches "te%st" "teXXXst" = true ∧
    likeMatches "te%st" "TEST" = true ∧
    likeMatches "te%st" "Xtest" = false := by
  refine ⟨fun p => ⟨rfl, rfl⟩, fun s => escGo_faithful s.data, ?_, ?_, ?_, ?_⟩
  · decide
  · decide
  · decide
  · decide

/-- C10: a `TxApplyIf` transaction leaves the Operation Bulk unchanged and
produces no log line, while any other unrecognized transaction kind logs an
error and likewise leaves the bulk unchanged; both are non-fatal, the rest
of the batch being processed normally. -/
theorem c10_applyif_skipped_silently :
    (∀ (h : Hierarchy) (b : OperationBulk) (mb : String) (mo : Int),
      updateBulkData h b mb mo .applyIf = (.ok b, [])) ∧
    (∀ (h : Hierarchy) (b : OperationBulk) (mb : String) (mo : Int) (cls : String),
      updateBulkData h b mb mo (.other cls) =
        (.ok b, ["Unknown/Unsupported operation: " ++ cls])) ∧
    (∀ (h : Hierarchy) (b : OperationBulk) (mb : String) (mo : Int) (rest : List Tx),
      processTxes h b (⟨mb, mo, .applyIf⟩ :: rest) = processTxes h b rest) ∧
    (∀ (h : Hierarchy) (b : OperationBulk) (mb : String) (mo : Int) (cls : String)
        (rest : List Tx),
      processTxes h b (⟨mb, mo, .other cls⟩ :: rest) =
        ((processTxes h b rest).1,
          ("Unknown/Unsupported operation: " ++ cls) :: (processTxes h b rest).2)) := by
  refine ⟨fun h b mb mo => rfl, fun h b mb mo cls => rfl, ?_, ?_⟩
  · intro h b mb mo rest
    simp [processTxes, updateBulk, updateBulkData]
  · intro h b mb mo cls rest
    cases hp : processTxes h b rest with
    | mk r logs2 => simp [processTxes, updateBulk, updateBulkData, hp]

/-- C2 counterexample: with options that request a lookup but a query and
sort that reference no joined field (and no rules or enum sort), `findAll`
takes the pipeline path although the claim's condition says fast path — the
claimed "if and only if" fails. -/
theorem c2_counterexample_lookup_options :
    usesPipeline h0 "A" Value.onil (some { lookup := some Value.onil }) = true ∧
    specPipelineCond h0 "A" Value.onil (some { lookup := some Value.onil }) = false :=
  ⟨rfl, rfl⟩

/-- C2 (amended): `findAll` delegates to `findWithPipeline` exactly when
options are present and request a lookup, contain a rules-sort entry, or
sort by an enum-typed attribute; the decision never consults the query, and
the rules/enum conditions are existential over the sort entries. -/
theorem c2_amended_pipeline_decision :
    (∀ (h : Hierarchy) (clazz : String) (q : Value) (opts : Option FindOpts),
      usesPipeline h clazz q opts =
        (opts.isSome &&
          ((opts.bind (·.lookup)).isSome || isEnumSort h clazz opts || isRulesSort opts))) ∧
    (∀ (h : Hierarchy) (clazz : String) (q q2 : Value) (opts : Option FindOpts),
      usesPipeline h clazz q opts = usesPipeline h clazz q2 opts) ∧
    (∀ opts : Option FindOpts,
      isRulesSort opts = true ↔
        ∃ s, opts.bind (·.sort) = some s ∧ ∃ k r, (k, SortVal.rules r) ∈ s) ∧
    (∀ (h : Hierarchy) (clazz : String) (opts : Option FindOpts),
      isEnumSort h clazz opts = true ↔
        ∃ s, opts.bind (·.sort) = some s ∧ ∃ kv ∈ s,
          ∃ attr, h.findAttribute clazz kv.1 = some attr ∧ attr.typeClass = coreEnumOf) := by
  refine ⟨?_, ?_, ?_, ?_⟩
  · intro h clazz q opts
    cases opts <;> rfl
  · intro h clazz q q2 opts
    cases opts <;> rfl
  · intro opts
    cases opts with
    | none => simp [isRulesSort]
    | some o =>
        cases ho : o.sort with
        | none => simp [isRulesSort, ho]
        | some s =>
            simp only [isRulesSort, Option.bind_eq_bind, Option.some_bind, ho,
              List.any_eq_true, Option.some.injEq]
            constructor
            · rintro ⟨kv, hmem, hkv⟩
              cases hv : kv.2 with
              | rules r =>
                  exact ⟨s, rfl, kv.1, r, by rwa [← hv, Prod.mk.eta]⟩
              | asc => rw [hv] at hkv; simp at hkv
              | desc => rw [hv] at hkv; simp at hkv
            · rintro ⟨s2, hs2, k, r, hmem⟩
              cases hs2
              exact ⟨(k, SortVal.rules r), hmem, rfl⟩
  · intro h clazz opts
    cases opts with
    | none => simp [isEnumSort]
    | some o =>
        cases ho : o.sort with
        | none => simp [isEnumSort, ho]
        | some s =>
            simp only [isEnumSort, Option.bind_eq_bind, Option.some_bind, ho,
              List.any_eq_true, Option.some.injEq]
            constructor
            · rintro ⟨kv, hmem, hkv⟩
              cases ha : h.findAttribute clazz kv.1 with
              | none => rw [ha] at hkv; simp at hkv
              | some attr =>
                  rw [ha] at hkv
                  simp only [decide_eq_true_eq] at hkv
                  exact ⟨s, rfl, kv, hmem, attr, ha, hkv⟩
            · rintro ⟨s2, hs2, kv, hmem, attr, ha, hattr⟩
              cases hs2
              refine ⟨kv, hmem, ?_⟩
              rw [ha]
              simpa using hattr

theorem arrElems_arrOf (l : List Value) : arrElems (arrOf l) = l := by
  induction l with
  | nil => rfl
  | cons x rest ih => simp [arrOf, arrElems, ih]

theorem arrStrs_vstrList (l : List String) : arrStrs (vstrList l) = l := by
  simp only [arrStrs, vstrList, arrElems_arrOf]
  induction l with
  | nil => rfl
  | cons x rest ih => simpa [List.filterMap] using ih

theorem isArrayV_vstrList (l : List String) : isArrayV (vstrList l) = true := by
  cases l <;> rfl

/-- C3 counterexample: when the query class's base class is the universal
root (`core.class.Doc`), `translateQuery` *removes* an explicit single class
constraint (`B` is in the descendant set, so the claim requires it to be
kept), and `findAll` returns documents of other classes. -/
theorem c3_counterexample_root_base :
    getField (translateQuery hRoot coreDoc (objOf [("_class", .vstr "B")]) none).1 "_class" = none ∧
    findAllFast hRoot [dB, dC] coreDoc (objOf [("_class", .vstr "B")]) none = [dB, dC] :=
  ⟨rfl, rfl⟩

/-- C3 (amended): unless `skipClass` is passed — which removes all class
narrowing — `translateQuery` scopes a query whose base class is *not* the
universal root to the concrete descendant classes: it injects an include-set
when no class constraint is present, keeps an in-set single value, replaces
an out-of-set single value, and intersects an include/exclude set with the
descendants then subtracts the excludes (collapsing to a single value when
one class remains).  When the base class is the universal root, any class
constraint is removed instead.  Scenario: with `B` descending from `A`,
`findAll(A, {})` returns both documents, `findAll(A, {_class: B})` only the
`B` document, and `findAll(A, {}, {skipClass: true})` both. -/
theorem c3_amended_class_scoping :
    (∀ (h : Hierarchy) (classes : List String) (base : Value),
      getField base "_class" = none →
      narrowClass h classes base =
        setField base "_class" (objOf [("$in", vstrList classes)])) ∧
    (∀ (h : Hierarchy) (classes : List String) (base : Value) (s : String),
      getField base "_class" = some (.vstr s) → classes.contains s = true →
      narrowClass h classes base = base) ∧
    (∀ (h : Hierarchy) (classes : List String) (base : Value) (s : String),
      getField base "_class" = some (.vstr s) → classes.contains s = false →
      narrowClass h classes base =
        setField base "_class" (classListValue classes)) ∧
    (∀ (h : Hierarchy) (classes : List String) (base : Value)
        (ins nins : List String),
      getField base "_class" =
        some (objOf [("$in", vstrList ins), ("$nin", vstrList nins)]) →
      narrowClass h classes base =
        setField base "_class"
          (classListValue (((ins.filter (fun c => classes.contains c)).filter
              (fun c => !nins.contains c)).filter (fun c => !h.isMixin c)))) ∧
    (∀ (h : Hierarchy) (clazz : String) (query : Value) (o : FindOpts),
      o.skipClass = true →
      getField (translateQuery h clazz query (some o)).1 "_class" = none) ∧
    (findAllFast hAB [dA, dB] "A" Value.onil none = [dA, dB] ∧
      findAllFast hAB [dA, dB] "A" (objOf [("_class", .vstr "B")]) none = [dB] ∧
      findAllFast hAB [dA, dB] "A" Value.onil (some { skipClass := true }) = [dA, dB] ∧
      usesPipeline hAB "A" Value.onil none = false ∧
      usesPipeline hAB "A" Value.onil (some { skipClass := true }) = false) := by
  refine ⟨?_, ?_, ?_, ?_, ?_, ?_⟩
  · intro h classes base hb
    simp [narrowClass, hb]
  · intro h classes base s hb hc
    have hc2 : s ∈ classes := by simpa using hc
    simp [narrowClass, hb, hc2]
  · intro h classes base s hb hc
    have hc2 : s ∉ classes := by simpa using hc
    simp [narrowClass, hb, hc2]
  · intro h classes base ins nins hb
    simp [narrowClass, hb, objOf, getField, isArrayV_vstrList, arrStrs_vstrList,
      List.filter_filter, isObjectV]
  · intro h clazz query o hsc
    simp [translateQuery, hsc, getField_removeField_self]
  · exact ⟨rfl, rfl, rfl, rfl, rfl⟩

/-- C3 witness: the amended narrowing facts applied at concrete inputs. -/
theorem c3_class_scoping_witness :
    narrowClass h0 ["A", "B"] Value.onil =
      setField Value.onil "_class" (objOf [("$in", vstrList ["A", "B"])]) ∧
    narrowClass h0 ["A", "B"] (objOf [("_class", .vstr "B")]) =
      objOf [("_class", .vstr "B")] ∧
    narrowClass h0 ["A"] (objOf [("_class", .vstr "X")]) =
      setField (objOf [("_class", .vstr "X")]) "_class" (.vstr "A") ∧
    narrowClass h0 ["A", "B"]
        (objOf [("_class", objOf [("$in", vstrList ["B", "X"]), ("$nin", vstrList [])])]) =
      setField (objOf [("_class", objOf [("$in", vstrList ["B", "X"]), ("$nin", vstrList [])])])
        "_class" (.vstr "B") ∧
    getField (translateQuery h0 "A" Value.onil (some { skipClass := true })).1 "_class" = none :=
  ⟨c3_amended_class_scoping.1 h0 ["A", "B"] Value.onil rfl,
   c3_amended_class_scoping.2.1 h0 ["A", "B"] (objOf [("_class", .vstr "B")]) "B" rfl rfl,
   c3_amended_class_scoping.2.2.1 h0 ["A"] (objOf [("_class", .vstr "X")]) "X" rfl rfl,
   c3_amended_class_scoping.2.2.2.1 h0 ["A", "B"]
     (objOf [("_class", objOf [("$in", vstrList ["B", "X"]), ("$nin", vstrList [])])])
     ["B", "X"] [] rfl,
   c3_amended_class_scoping.2.2.2.2.1 h0 "A" Value.onil { skipClass := true } rfl⟩

/-! ## C1: digest invalidation -/

theorem mem_objKeys_spreadMerge (a b : Value) (k : String)
    (h : k ∈ objKeys (spreadMerge a b)) : k ∈ objKeys a ∨ k ∈ objKeys b := by
  induction b generalizing a with
  | ocons k1 v1 r ihv ihr =>
      simp only [spreadMerge] at h
      rcases ihr _ h with h2 | h2
      · rw [objKeys_setField] at h2
        by_cases hm : k1 ∈ objKeys a
        · rw [if_pos hm] at h2; exact Or.inl h2
        · rw [if_neg hm] at h2
          rcases List.mem_append.1 h2 with h3 | h3
          · exact Or.inl h3
          · simp only [List.mem_singleton] at h3
            subst h3
            exact Or.inr (by simp [objKeys])
      · exact Or.inr (by simp [objKeys, h2])
  | acons hd tl ihh iht => exact Or.inl h
  | _ => exact Or.inl h

/-- Every key produced by the mixin-attribute translator either is an
operator key or carries the `mixin.` prefix (hence a dot). -/
theorem objKeys_tmaGo_shape (mixin : String) (attrs : Value) (k : String)
    (h : k ∈ objKeys (tmaGo mixin attrs)) :
    jsStartsWith k "$" = true ∨ '.' ∈ k.data := by
  induction attrs with
  | ocons k1 v1 r ihv ihr =>
      by_cases hs : jsStartsWith k1 "$" = true
      · simp only [tmaGo, hs, if_pos, objKeys, List.mem_cons] at h
        rcases h with h | h
        · subst h; exact Or.inl hs
        · exact ihr h
      · simp only [tmaGo, hs, if_neg, Bool.false_eq_true, objKeys, List.mem_cons] at h
        rcases h with h | h
        · subst h
          refine Or.inr ?_
          rw [String.append_assoc]
          rw [show (mixin ++ ("." ++ k1)).data = mixin.data ++ ("." ++ k1).data from
            String.data_append _ _]
          refine List.mem_append.2 (Or.inr ?_)
          rw [show ("." ++ k1).data = '.' :: k1.data from String.data_append _ _]
          exact List.mem_cons_self _ _
        · exact ihr h
  | _ => simp [tmaGo, objKeys] at h

theorem objKeys_translateMixinAttrs_shape (mixin : String) (attrs : Value)
    (k : String) (h : k ∈ objKeys (translateMixinAttrs mixin attrs)) :
    jsStartsWith k "$" = true ∨ '.' ∈ k.data := by
  by_cases he : hasEntries attrs = true
  · rw [translateMixinAttrs, if_pos he] at h
    exact objKeys_tmaGo_shape mixin attrs k h
  · rw [translateMixinAttrs, if_neg he] at h
    simp only [sentinelMixin, objKeys, List.mem_cons, List.not_mem_nil, or_false] at h
    subst h
    refine Or.inr ?_
    rw [String.append_assoc]
    rw [show (mixin ++ ("." ++ "__mixin")).data = mixin.data ++ ("." ++ "__mixin").data from
      String.data_append _ _]
    exact List.mem_append.2 (Or.inr (by decide))

/-- The digest key is never among the keys a mixin-apply write assigns. -/
theorem hash_not_mem_mixin_keys (mixin : String) (attrs : Value) :
    "%hash%" ∉ objKeys (translateMixinAttrs mixin attrs) := by
  intro h
  rcases objKeys_translateMixinAttrs_shape mixin attrs _ h with h2 | h2
  · exact absurd h2 (by decide)
  · exact absurd h2 (by decide)

theorem nodup_objKeys_onil : (objKeys Value.onil).Nodup := by
  simp [objKeys]

/-- C1 counterexample: a flat mixin-apply write does not set the digest
field to null — its coalesced update payload has no `%hash%` entry at all —
and a bulk upsert of a document carrying digest `"abc"` stores
`"abc|a"` (hash|sizeHex), not null. -/
theorem c1_counterexample_mixin_and_upsert :
    txMixin emptyBulk "1" "M" (objOf [("a", .vint 1)]) "u" 5 =
      .ok { emptyBulk with update := [("1",
        objOf [("M.a", .vint 1), ("modifiedBy", .vstr "u"), ("modifiedOn", .vint 5)])] } ∧
    getField (objOf [("M.a", .vint 1), ("modifiedBy", .vstr "u"), ("modifiedOn", .vint 5)])
      "%hash%" = none ∧
    uploadDocuments (fun _ => 10) [objOf [("_id", .vstr "1"), ("%hash%", .vstr "abc")]] =
      [[.replaceOne (objOf [("_id", .vstr "1")])
          (objOf [("_id", .vstr "1"), ("%hash%", .vstr "abc|a")]) true]] :=
  ⟨rfl, rfl, rfl⟩

/-- C1 (amended): create writes and update writes (flat and every
operator form) set the private digest field `%hash%` to null in the emitted
native operation; mixin-apply writes never mention the digest field (its
value in a coalesced entry is whatever it already was); a bulk upsert stores
null only when the incoming digest is null/absent and otherwise re-encodes
it as `digest|sizeHex`; and the digest is stripped from every document
`findAll`'s fast path returns. -/
theorem c1_amended_digest_invalidation :
    (∀ doc : Value, getField (translateDoc doc) "%hash%" = some .vnull) ∧
    (∀ (h : Hierarchy) (bulk : OperationBulk) (id cls : String) (ops : Value)
        (retrieve : Bool) (mb : String) (mo : Int),
      isOperator ops = false →
      txUpdateDoc h bulk id cls ops retrieve mb mo =
        .ok (if retrieve then
          { bulk with
            update := mapSet bulk.update id
              (spreadMerge ((mapGet bulk.update id).getD .onil) (flatUpdatePayload ops mb mo))
            findUpdate := setAdd bulk.findUpdate id }
        else
          { bulk with
            update := mapSet bulk.update id
              (spreadMerge ((mapGet bulk.update id).getD .onil) (flatUpdatePayload ops mb mo)) }) ∧
      getField (spreadMerge ((mapGet bulk.update id).getD .onil) (flatUpdatePayload ops mb mo))
        "%hash%" = some .vnull) ∧
    (∀ (h : Hierarchy) (bulk : OperationBulk) (id cls arr : String) (v p : Value)
        (retrieve : Bool) (mb : String) (mo : Int),
      txUpdateDoc h bulk id cls
          (objOf [("$move", objOf [(arr, objOf [("$value", v), ("$position", p)])])])
          retrieve mb mo =
        .ok { bulk with bulkOperations := bulk.bulkOperations ++
          [ .updateOne (objOf [("_id", .vstr id)]) (objOf
              [("$set", objOf [("%hash%", .vnull)]), ("$pull", objOf [(arr, v)])]),
            .updateOne (objOf [("_id", .vstr id)]) (objOf
              [("$set", objOf [("modifiedBy", .vstr mb), ("modifiedOn", .vint mo),
                  ("%hash%", .vnull)]),
               ("$push", objOf [(arr, objOf [("$each", arrOf [v]), ("$position", p)])])]) ] }) ∧
    (∀ (h : Hierarchy) (bulk : OperationBulk) (id cls arr : String) (q u : Value)
        (retrieve : Bool) (mb : String) (mo : Int),
      txUpdateDoc h bulk id cls
          (objOf [("$update", objOf [(arr, objOf [("$query", q), ("$update", u)])])])
          retrieve mb mo =
        .ok { bulk with bulkOperations := bulk.bulkOperations ++
          [ .updateOne (spreadMerge (objOf [("_id", .vstr id)]) (prefixKeys (arr ++ ".") q))
              (objOf [("$set", setField (prefixKeys (arr ++ ".$.") u) "%hash%" .vnull)]),
            .updateOne (objOf [("_id", .vstr id)]) (objOf
              [("$set", objOf [("modifiedBy", .vstr mb), ("modifiedOn", .vint mo),
                  ("%hash%", .vnull)])]) ] } ∧
      getField (setField (prefixKeys (arr ++ ".$.") u) "%hash%" .vnull) "%hash%" =
        some .vnull) ∧
    (∀ (h : Hierarchy) (bulk : OperationBulk) (id cls : String) (ops : Value)
        (k : String) (mb : String) (mo : Int),
      isOperator ops = true → firstKey ops = some k → k ≠ "$move" → k ≠ "$update" →
      txUpdateDoc h bulk id cls ops false mb mo =
        .ok { bulk with bulkOperations := bulk.bulkOperations ++
          [.updateOne (objOf [("_id", .vstr id)]) (operUpdatePayload ops mb mo)] } ∧
      txUpdateDoc h bulk id cls ops true mb mo =
        .ok { bulk with raw := bulk.raw ++ [⟨h.getDomain cls, id, operUpdatePayload ops mb mo⟩] } ∧
      getField (operUpdatePayload ops mb mo) "$set" =
        some (objOf [("modifiedBy", .vstr mb), ("modifiedOn", .vint mo), ("%hash%", .vnull)])) ∧
    (∀ (bulk : OperationBulk) (id M : String) (attrs : Value) (mb : String) (mo : Int),
      isOperator attrs = false →
      txMixin bulk id M attrs mb mo =
        .ok { bulk with
          update := mapSet bulk.update id
            (spreadMerge ((mapGet bulk.update id).getD .onil) (mixinFlatPayload M attrs mb mo)) } ∧
      getField (mixinFlatPayload M attrs mb mo) "%hash%" = none ∧
      (∀ upd : Value,
        getField (spreadMerge upd (mixinFlatPayload M attrs mb mo)) "%hash%" =
          getField upd "%hash%")) ∧
    (∀ (bulk : OperationBulk) (id M : String) (attrs : Value) (k : String)
        (mb : String) (mo : Int),
      isOperator attrs = true → firstKey attrs = some k → k ≠ "$move" →
      txMixin bulk id M attrs mb mo =
        .ok { bulk with bulkOperations := bulk.bulkOperations ++
          [.updateOne (objOf [("_id", .vstr id)]) (mixinOperPayload M attrs mb mo)] } ∧
      getField (mixinOperPayload M attrs mb mo) "%hash%" = none ∧
      getField (mixinOperPayload M attrs mb mo) "$set" =
        some (spreadMerge .onil (objOf [("modifiedBy", .vstr mb), ("modifiedOn", .vint mo)])) ∧
      getField (spreadMerge .onil (objOf [("modifiedBy", .vstr mb), ("modifiedOn", .vint mo)]))
        "%hash%" = none) ∧
    (∀ (sizeOf : Value → Nat) (doc : Value),
      ((getField doc "%hash%" = none ∨ getField doc "%hash%" = some .vnull) →
        uploadDocuments sizeOf [doc] =
          [[.replaceOne (objOf [("_id", (getField (removeField doc "%hash%") "_id").getD .vnull)])
              (setField (spreadMerge .onil (removeField doc "%hash%")) "%hash%" .vnull) true]]) ∧
      (∀ s : String, getField doc "%hash%" = some (.vstr s) →
        uploadDocuments sizeOf [doc] =
          [[.replaceOne (objOf [("_id", (getField (removeField doc "%hash%") "_id").getD .vnull)])
              (setField (spreadMerge .onil (removeField doc "%hash%")) "%hash%"
                (.vstr (s ++ "|" ++ natToHex (sizeOf (removeField doc "%hash%"))))) true]])) ∧
    (∀ doc : Value, getField (stripHashDoc doc) "%hash%" = none) ∧
    (∀ (h : Hierarchy) (store : List Value) (clazz : String) (query : Value)
        (opts : Option FindOpts) (d2 : Value),
      d2 ∈ findAllFast h store clazz query opts → getField d2 "%hash%" = none) := by
  have hModifyKeys : ∀ (mb : String) (mo : Int),
      "%hash%" ∉ objKeys (objOf [("modifiedBy", .vstr mb), ("modifiedOn", .vint mo)]) := by
    intro mb mo
    simp [objOf, objKeys]
  have hFlatNodup : ∀ (ops : Value) (mb : String) (mo : Int),
      (objKeys (flatUpdatePayload ops mb mo)).Nodup := by
    intro ops mb mo
    exact nodup_objKeys_setField _ _ _ (nodup_objKeys_setField _ _ _
      (nodup_objKeys_setField _ _ _ (nodup_objKeys_spreadMerge _ _ nodup_objKeys_onil)))
  have hMixinPayloadKeys : ∀ (M : String) (attrs : Value) (mb : String) (mo : Int),
      "%hash%" ∉ objKeys (mixinFlatPayload M attrs mb mo) := by
    intro M attrs mb mo hmem
    rcases mem_objKeys_spreadMerge _ _ _ hmem with hm | hm
    · rcases mem_objKeys_spreadMerge _ _ _ hm with hm2 | hm2
      · simp [objKeys] at hm2
      · exact hash_not_mem_mixin_keys M attrs hm2
    · exact hModifyKeys mb mo hm
  refine ⟨?_, ?_, ?_, ?_, ?_, ?_, ?_, ?_, ?_, ?_⟩
  · intro doc
    exact getField_setField_self _ _ _
  · intro h bulk id cls ops retrieve mb mo hop
    refine ⟨?_, ?_⟩
    · cases retrieve <;> simp [txUpdateDoc, hop, flatUpdatePayload]
    · exact getField_spreadMerge_of_nodup _ _ _ _ (hFlatNodup ops mb mo)
        (getField_setField_self _ _ _)
  · intro h bulk id cls arr v p retrieve mb mo
    simp [txUpdateDoc, isOperator, objOf, objKeys, firstKey, getField,
      show jsStartsWith "$move" "$" = true from by decide]
  · intro h bulk id cls arr q u retrieve mb mo
    refine ⟨?_, getField_setField_self _ _ _⟩
    simp [txUpdateDoc, isOperator, objOf, objKeys, firstKey, getField,
      show jsStartsWith "$update" "$" = true from by decide]
  · intro h bulk id cls ops k mb mo hop hfk hk1 hk2
    refine ⟨?_, ?_, getField_setField_self _ _ _⟩
    · simp [txUpdateDoc, hop, hfk, hk1, hk2, operUpdatePayload]
    · simp [txUpdateDoc, hop, hfk, hk1, hk2, operUpdatePayload]
  · intro bulk id M attrs mb mo hop
    have h1 := getField_spreadMerge_of_not_mem
      (spreadMerge Value.onil (translateMixinAttrs M attrs))
      (objOf [("modifiedBy", .vstr mb), ("modifiedOn", .vint mo)]) "%hash%"
      (hModifyKeys mb mo)
    have h2 := getField_spreadMerge_of_not_mem Value.onil (translateMixinAttrs M attrs)
      "%hash%" (hash_not_mem_mixin_keys M attrs)
    refine ⟨?_, ?_, ?_⟩
    · simp [txMixin, hop, mixinFlatPayload]
    · unfold mixinFlatPayload
      rw [h1, h2]
      rfl
    · intro upd
      exact getField_spreadMerge_of_not_mem _ _ _ (hMixinPayloadKeys M attrs mb mo)
  · intro bulk id M attrs k mb mo hop hfk hk1
    have h2 := getField_spreadMerge_of_not_mem Value.onil (translateMixinAttrs M attrs)
      "%hash%" (hash_not_mem_mixin_keys M attrs)
    have h3 := getField_setField_ne (spreadMerge Value.onil (translateMixinAttrs M attrs))
      "%hash%" "$set"
      (spreadMerge Value.onil (objOf [("modifiedBy", .vstr mb), ("modifiedOn", .vint mo)]))
      (by decide)
    have h4 := getField_spreadMerge_of_not_mem Value.onil
      (objOf [("modifiedBy", .vstr mb), ("modifiedOn", .vint mo)]) "%hash%"
      (hModifyKeys mb mo)
    refine ⟨?_, ?_, getField_setField_self _ _ _, ?_⟩
    · simp [txMixin, hop, hfk, hk1, mixinOperPayload]
    · unfold mixinOperPayload
      rw [h3, h2]
      rfl
    · rw [h4]
      rfl
  · intro sizeOf doc
    refine ⟨?_, ?_⟩
    · rintro (hd | hd) <;> simp [uploadDocuments, chunksOf, chunksOfAux, hd]
    · intro s hd
      simp [uploadDocuments, chunksOf, chunksOfAux, hd]
  · intro doc
    exact getField_removeField_self _ _
  · intro h store clazz query opts d2 hmem
    simp only [findAllFast] at hmem
    split at hmem <;>
    · rcases List.mem_map.1 hmem with ⟨d0, _, hd0⟩
      subst hd0
      exact getField_removeField_self _ _

/-- C1 witness: the amended digest facts applied at concrete inputs. -/
theorem c1_digest_invalidation_witness :
    getField (spreadMerge ((mapGet emptyBulk.update "1").getD .onil)
      (flatUpdatePayload (objOf [("n", .vint 1)]) "u" 5)) "%hash%" = some .vnull ∧
    getField (operUpdatePayload (objOf [("$push", .vint 1)]) "u" 5) "$set" =
      some (objOf [("modifiedBy", .vstr "u"), ("modifiedOn", .vint 5), ("%hash%", .vnull)]) ∧
    getField (mixinFlatPayload "M" (objOf [("a", .vint 1)]) "u" 5) "%hash%" = none ∧
    getField (mixinOperPayload "M" (objOf [("$push", .vint 1)]) "u" 5) "%hash%" = none ∧
    uploadDocuments (fun _ => 10) [objOf [("_id", .vstr "1")]] =
      [[.replaceOne
          (objOf [("_id",
            (getField (removeField (objOf [("_id", .vstr "1")]) "%hash%") "_id").getD .vnull)])
          (setField (spreadMerge .onil (removeField (objOf [("_id", .vstr "1")]) "%hash%"))
            "%hash%" .vnull) true]] :=
  ⟨(c1_amended_digest_invalidation.2.1 h0 emptyBulk "1" "A" (objOf [("n", .vint 1)])
      false "u" 5 (by decide)).2,
   (c1_amended_digest_invalidation.2.2.2.2.1 h0 emptyBulk "1" "A"
      (objOf [("$push", .vint 1)]) "$push" "u" 5 (by decide) (by decide)
      (by decide) (by decide)).2.2,
   (c1_amended_digest_invalidation.2.2.2.2.2.1 emptyBulk "1" "M"
      (objOf [("a", .vint 1)]) "u" 5 (by decide)).2.1,
   (c1_amended_digest_invalidation.2.2.2.2.2.2.1 emptyBulk "1" "M"
      (objOf [("$push", .vint 1)]) "$push" "u" 5 (by decide) (by decide) (by decide)).2.1,
   (c1_amended_digest_invalidation.2.2.2.2.2.2.2.1 (fun _ => 10)
      (objOf [("_id", .vstr "1")])).1 (Or.inl (by decide))⟩

/-! ## C4: array-move ordering -/

/-- C4: a `$move` on the *mixin* path crashes instead of emitting its two
ops — `txMixin` computes `arr = mixin + '.' + key` and reads the descriptor
at `keyval[arr]`, which is undefined, so `desc.$value` throws (the embedded
translator returns `.error`).  On the *update* path a `$move` emits exactly
two bulk operations in declared order — first a pull of the value, then a
positional push, both resetting the digest — and applying pull-then-push to
any array state leaves the moved value present exactly once (never
duplicated, never absent). -/
theorem c4_array_move_two_ops :
    txMixin emptyBulk "1" "M"
        (objOf [("$move", objOf [("tags",
          objOf [("$value", .vstr "x"), ("$position", .vint 0)])])]) "u" 5 =
      .error "TypeError: cannot read properties of undefined (reading $value)" ∧
    (∀ (h : Hierarchy) (bulk : OperationBulk) (id cls arr : String) (v p : Value)
        (retrieve : Bool) (mb : String) (mo : Int),
      txUpdateDoc h bulk id cls
          (objOf [("$move", objOf [(arr, objOf [("$value", v), ("$position", p)])])])
          retrieve mb mo =
        .ok { bulk with bulkOperations := bulk.bulkOperations ++
          [ .updateOne (objOf [("_id", .vstr id)]) (objOf
              [("$set", objOf [("%hash%", .vnull)]), ("$pull", objOf [(arr, v)])]),
            .updateOne (objOf [("_id", .vstr id)]) (objOf
              [("$set", objOf [("modifiedBy", .vstr mb), ("modifiedOn", .vint mo),
                  ("%hash%", .vnull)]),
               ("$push", objOf [(arr, objOf [("$each", arrOf [v]), ("$position", p)])])]) ] }) ∧
    (∀ (xs : List Value) (v : Value) (p : Nat),
      (pushAt (pullAll xs v) v p).count v = 1) := by
  refine ⟨rfl, ?_, ?_⟩
  · intro h bulk id cls arr v p retrieve mb mo
    simp [txUpdateDoc, isOperator, objOf, objKeys, firstKey, getField,
      show jsStartsWith "$move" "$" = true from by decide]
  · intro xs v p
    have h1 : (pullAll xs v).count v = 0 := by
      rw [List.count_eq_zero]
      intro hmem
      rcases List.mem_filter.1 hmem with ⟨_, hprop⟩
      simp at hprop
    have ht : (List.take p (pullAll xs v)).count v = 0 :=
      Nat.le_zero.mp (h1 ▸ (List.take_sublist p _).count_le v)
    have hd : (List.drop p (pullAll xs v)).count v = 0 :=
      Nat.le_zero.mp (h1 ▸ (List.drop_sublist p _).count_le v)
    simp [pushAt, List.count_append, ht, hd, List.count_cons]

/-! ## C5: insert/update exclusivity and assembly order -/

/-- The guarded pushes of storage.ts 1215-1238 amount to plain
concatenation: inserts, then coalesced update entries, then explicit bulk
operations. -/
theorem assembleOps_concat (b : OperationBulk) :
    assembleOps b =
      b.add.map .insertOne ++
      b.update.map (fun it =>
        WriteOp.updateOne (objOf [("_id", .vstr it.1)]) (objOf [("$set", it.2)])) ++
      b.bulkOperations := by
  unfold assembleOps
  by_cases ha : b.add.length > 0 <;> by_cases hu : b.update.length > 0 <;>
    by_cases ho : b.bulkOperations.length > 0 <;>
    simp_all [Nat.pos_iff_ne_zero, List.length_eq_zero]

/-- C5 counterexample: for the batch [remove id 1, flat-update id 1] the
assembled per-domain list places the coalesced update-map entry *before*
the explicit bulk operation (the claim requires the opposite order); and a
batch [create id 1, flat-update id 1] puts the same id in both the insert
list and the update map (the claim forbids coexistence). -/
theorem c5_counterexample_order_and_overlap :
    writeCalls hAB [⟨"u", 5, .removeDoc "1" "A"⟩,
        ⟨"u", 6, .updateDoc "1" "A" (objOf [("n", .vint 1)]) false⟩] =
      .ok [("d",
        [ .updateOne (objOf [("_id", .vstr "1")]) (objOf [("$set",
            objOf [("n", .vint 1), ("modifiedBy", .vstr "u"), ("modifiedOn", .vint 6),
              ("%hash%", .vnull)])]),
          .deleteOne (objOf [("_id", .vstr "1")]) ])] ∧
    Except.map (fun b => (b.add.length, (mapGet b.update "1").isSome))
        (processTxes hAB emptyBulk [⟨"u", 5, .createDoc "1" "A" .onil⟩,
          ⟨"u", 6, .updateDoc "1" "A" (objOf [("n", .vint 1)]) false⟩]).1 =
      .ok (1, true) :=
  ⟨rfl, rfl⟩

/-- C5 (amended): nothing makes the insert list and the coalesced update map
exclusive — a create and a flat update of the same id in one batch put the
id in both — and the final per-domain operation list is assembled as the
inserts, then the update-map entries as `updateOne` ops, then the explicit
bulk operations: update-map entries *precede* explicit bulk ops (the batch
is then dispatched as one unordered, unacknowledged write). -/
theorem c5_amended_assembly_order :
    (∀ b : OperationBulk, assembleOps b =
      b.add.map .insertOne ++
      b.update.map (fun it =>
        WriteOp.updateOne (objOf [("_id", .vstr it.1)]) (objOf [("$set", it.2)])) ++
      b.bulkOperations) ∧
    Except.map (fun b => (b.add.length, (mapGet b.update "1").isSome, assembleOps b))
        (processTxes hAB emptyBulk [⟨"u", 5, .createDoc "1" "A" .onil⟩,
          ⟨"u", 6, .updateDoc "1" "A" (objOf [("n", .vint 1)]) false⟩]).1 =
      .ok (1, true,
        [ .insertOne (objOf [("_id", .vstr "1"), ("_class", .vstr "A"),
            ("modifiedBy", .vstr "u"), ("modifiedOn", .vint 5), ("%hash%", .vnull)]),
          .updateOne (objOf [("_id", .vstr "1")]) (objOf [("$set",
            objOf [("n", .vint 1), ("modifiedBy", .vstr "u"), ("modifiedOn", .vint 6),
              ("%hash%", .vnull)])]) ]) :=
  ⟨assembleOps_concat, rfl⟩

/-! ## C6: batch coalescing, invariant under interleaving -/

theorem mapSet_keys (m : List (String × Value)) (k : String) (v : Value) :
    (mapSet m k v).map Prod.fst =
      if k ∈ m.map Prod.fst then m.map Prod.fst else m.map Prod.fst ++ [k] := by
  induction m with
  | nil => simp [mapSet]
  | cons e rest ih =>
      by_cases h : e.1 = k
      · subst h
        cases e
        simp [mapSet]
      · cases e with
        | mk k1 v1 =>
            simp only at h
            have h2 : ¬k = k1 := fun hh => h hh.symm
            simp only [mapSet, if_neg h, List.map_cons, List.mem_cons, ih]
            by_cases hm : k ∈ rest.map Prod.fst
            · simp [hm, h2]
            · simp [hm, h2]

theorem mapSet_keys_nodup (m : List (String × Value)) (k : String) (v : Value)
    (h : (m.map Prod.fst).Nodup) : ((mapSet m k v).map Prod.fst).Nodup := by
  rw [mapSet_keys]
  by_cases hm : k ∈ m.map Prod.fst
  · simpa [hm]
  · simpa [hm, List.nodup_append] using h

theorem mapSet_keys_toFinset (m : List (String × Value)) (k : String) (v : Value) :
    ((mapSet m k v).map Prod.fst).toFinset = insert k (m.map Prod.fst).toFinset := by
  rw [mapSet_keys]
  by_cases hm : k ∈ m.map Prod.fst
  · rw [if_pos hm]
    exact (Finset.insert_eq_self.2 (List.mem_toFinset.2 hm)).symm
  · rw [if_neg hm, List.toFinset_append]
    simp [Finset.union_comm, Finset.insert_eq]

theorem groupBy_const_aux (h : Hierarchy) (dom : String) :
    ∀ (l : List Tx) (acc0 : List Tx), (∀ t ∈ l, txDomain h t = some dom) →
      l.foldl (fun groups t => addToGroup groups (txDomain h t) t) [(some dom, acc0)] =
        [(some dom, acc0 ++ l)] := by
  intro l
  induction l with
  | nil => intro acc0 _; simp
  | cons t rest ih =>
      intro acc0 hall
      have ht : txDomain h t = some dom := hall t (by simp)
      have hrest : ∀ t2 ∈ rest, txDomain h t2 = some dom :=
        fun t2 hm => hall t2 (by simp [hm])
      rw [List.foldl_cons]
      have hstep : addToGroup [(some dom, acc0)] (txDomain h t) t =
          [(some dom, acc0 ++ [t])] := by
        rw [ht]
        simp [addToGroup]
      rw [hstep, ih (acc0 ++ [t]) hrest]
      simp

theorem groupByDomain_const (h : Hierarchy) (dom : String) (l : List Tx)
    (hne : l ≠ []) (hall : ∀ t ∈ l, txDomain h t = some dom) :
    groupByDomain h l = [(some dom, l)] := by
  cases l with
  | nil => exact absurd rfl hne
  | cons t rest =>
      have ht : txDomain h t = some dom := hall t (by simp)
      have hrest : ∀ t2 ∈ rest, txDomain h t2 = some dom :=
        fun t2 hm => hall t2 (by simp [hm])
      rw [groupByDomain, List.foldl_cons]
      have hstep : addToGroup [] (txDomain h t) t = [(some dom, [t])] := by
        rw [ht]
        rfl
      rw [hstep, groupBy_const_aux h dom rest [t] hrest]
      rfl

/-- Folding a batch of creates and flat updates over a bulk: the insert
list grows by the number of creates, the update-map keyset gains the
updated ids, and nothing else changes. -/
theorem processTxes_simple (h : Hierarchy) :
    ∀ (l : List Tx) (b : OperationBulk), (∀ t ∈ l, isC6Simple t = true) →
      ∃ b2, processTxes h b l = (.ok b2, []) ∧
        b2.add.length = b.add.length + l.countP isCreateTx ∧
        ((b.update.map Prod.fst).Nodup → (b2.update.map Prod.fst).Nodup) ∧
        (b2.update.map Prod.fst).toFinset =
          (b.update.map Prod.fst).toFinset ∪ (l.filterMap flatUpdId).toFinset ∧
        b2.bulkOperations = b.bulkOperations ∧
        b2.findUpdate = b.findUpdate ∧ b2.raw = b.raw := by
  intro l
  induction l with
  | nil =>
      intro b _
      exact ⟨b, rfl, by simp, fun hn => hn, by simp, rfl, rfl, rfl⟩
  | cons t rest ih =>
      intro b hall
      have htsimple : isC6Simple t = true := hall t (by simp)
      have hrest : ∀ t2 ∈ rest, isC6Simple t2 = true :=
        fun t2 hm => hall t2 (by simp [hm])
      cases t with
      | mk mb mo data =>
          cases data with
          | createDoc id cls attrs =>
              rcases ih (txCreateDoc b id cls attrs mb mo) hrest with
                ⟨b2, hp, hlen, hnd, hfin, hbo, hfu, hraw⟩
              refine ⟨b2, ?_, ?_, ?_, ?_, ?_, ?_, ?_⟩
              · simp [processTxes, updateBulk, updateBulkData, hp]
              · simp only [hlen, txCreateDoc, List.length_append]
                simp [isCreateTx, List.countP_cons]
                omega
              · intro hn
                exact hnd (by simpa [txCreateDoc] using hn)
              · rw [hfin]
                simp [txCreateDoc, List.filterMap_cons, flatUpdId]
              · simpa [txCreateDoc] using hbo
              · simpa [txCreateDoc] using hfu
              · simpa [txCreateDoc] using hraw
          | updateDoc id cls ops r =>
              have hflat : (!isOperator ops && !r) = true := by
                have hts := htsimple
                simp only [isC6Simple, isCreateTx, flatUpdId, Bool.or_eq_true] at hts
                rcases hts with hc | hs
                · exact absurd hc (by simp)
                · by_cases hcond : (!isOperator ops && !r) = true
                  · exact hcond
                  · simp [hcond] at hs
              simp only [Bool.and_eq_true, Bool.not_eq_true'] at hflat
              have hop : isOperator ops = false := hflat.1
              have hr : r = false := hflat.2
              subst hr
              rcases ih { b with
                  update := mapSet b.update id
                    (spreadMerge ((mapGet b.update id).getD .onil)
                      (flatUpdatePayload ops mb mo)) } hrest with
                ⟨b2, hp, hlen, hnd, hfin, hbo, hfu, hraw⟩
              have hstep : txUpdateDoc h b id cls ops false mb mo =
                  .ok { b with
                    update := mapSet b.update id
                      (spreadMerge ((mapGet b.update id).getD .onil)
                        (flatUpdatePayload ops mb mo)) } := by
                simp [txUpdateDoc, hop, flatUpdatePayload]
              refine ⟨b2, ?_, ?_, ?_, ?_, ?_, ?_, ?_⟩
              · simp [processTxes, updateBulk, updateBulkData, hstep, hp]
              · simp only [hlen]
                simp [isCreateTx, List.countP_cons]
              · intro hn
                exact hnd (mapSet_keys_nodup _ _ _ hn)
              · rw [hfin]
                simp only [mapSet_keys_toFinset]
                rw [List.filterMap_cons]
                simp only [flatUpdId, hop, Bool.not_false, Bool.not_true, Bool.and_self,
                  if_pos]
                rw [List.toFinset_cons]
                ext x
                simp only [Finset.mem_union, Finset.mem_insert]
                tauto
              · simpa using hbo
              · simpa using hfu
              · simpa using hraw
          | removeDoc id cls => simp [isC6Simple, isCreateTx, flatUpdId] at htsimple
          | mixinTx id cls mixin attrs =>
              simp [isC6Simple, isCreateTx, flatUpdId] at htsimple
          | collectionCUD a1 a2 a3 a4 a5 a6 =>
              simp [isC6Simple, isCreateTx, flatUpdId] at htsimple
          | applyIf => simp [isC6Simple, isCreateTx, flatUpdId] at htsimple
          | other cls => simp [isC6Simple, isCreateTx, flatUpdId] at htsimple

theorem countP_map_insertOne (ds : List Value) :
    (ds.map WriteOp.insertOne).countP isInsertOp = ds.length ∧
    (ds.map WriteOp.insertOne).countP isUpdateOneOp = 0 := by
  induction ds with
  | nil => simp
  | cons d rest ih => simp [List.countP_cons, isInsertOp, isUpdateOneOp, ih]

theorem countP_map_updateOne (us : List (String × Value)) :
    ((us.map (fun it => WriteOp.updateOne (objOf [("_id", .vstr it.1)])
        (objOf [("$set", it.2)]))).countP isUpdateOneOp) = us.length ∧
    ((us.map (fun it => WriteOp.updateOne (objOf [("_id", .vstr it.1)])
        (objOf [("$set", it.2)]))).countP isInsertOp) = 0 := by
  induction us with
  | nil => simp
  | cons u rest ih => simp [List.countP_cons, isInsertOp, isUpdateOneOp, ih]

/-- C6: for every interleaving of the scenario batch (3 creates, 2 flat
updates on distinct pre-existing ids, one domain), `tx` issues exactly one
batched write call for the domain, containing exactly 3 insert entries and
exactly 2 update entries (5 operations in total). -/
theorem c6_batch_coalescing (l : List Tx) (hp : l.Perm txC6) :
    Except.map (fun calls => calls.map (fun c =>
        (c.1, c.2.countP isInsertOp, c.2.countP isUpdateOneOp, c.2.length)))
      (writeCalls hAB l) = .ok [("d", 3, 2, 5)] := by
  have hallC6 : ∀ t ∈ txC6, isC6Simple t = true := by decide
  have hdomC6 : ∀ t ∈ txC6, txDomain hAB t = some "d" := by decide
  have hall : ∀ t ∈ l, isC6Simple t = true := fun t hm => hallC6 t (hp.mem_iff.1 hm)
  have hdom : ∀ t ∈ l, txDomain hAB t = some "d" := fun t hm => hdomC6 t (hp.mem_iff.1 hm)
  have hne : l ≠ [] := by
    intro he
    rw [he] at hp
    have hl := hp.length_eq
    simp [txC6] at hl
  have hgroup := groupByDomain_const hAB "d" l hne hdom
  rcases processTxes_simple hAB l emptyBulk hall with
    ⟨b2, hp2, hlen, hnd, hfin, hbo, hfu, hraw⟩
  have hcnt : l.countP isCreateTx = 3 := by
    rw [hp.countP_eq]
    decide
  have hfm : (l.filterMap flatUpdId).toFinset = (txC6.filterMap flatUpdId).toFinset := by
    have hperm := hp.filterMap flatUpdId
    ext x
    simp [List.mem_toFinset, hperm.mem_iff]
  have hlen3 : b2.add.length = 3 := by
    rw [hlen, hcnt]
    simp [emptyBulk]
  have hnd2 : (b2.update.map Prod.fst).Nodup := hnd (by simp [emptyBulk])
  have hfin2 : (b2.update.map Prod.fst).toFinset = (txC6.filterMap flatUpdId).toFinset := by
    rw [hfin, hfm]
    simp [emptyBulk]
  have hulen : b2.update.length = 2 := by
    have hcard := List.toFinset_card_of_nodup hnd2
    rw [hfin2] at hcard
    have hc2 : (txC6.filterMap flatUpdId).toFinset.card = 2 := by decide
    rw [hc2] at hcard
    simpa using hcard.symm
  have hbo2 : b2.bulkOperations = [] := by
    rw [hbo]
    rfl
  have hemp : isEmptyBulk b2 = false := by
    unfold isEmptyBulk
    have hane : b2.add ≠ [] := by
      intro hh
      rw [hh] at hlen3
      simp at hlen3
    cases hae : b2.add with
    | nil => exact absurd hae hane
    | cons x xs => simp [hae]
  have htx : txRun hAB l = .ok [⟨"d", assembleOps b2, b2.findUpdate, b2.raw⟩] := by
    unfold txRun
    rw [hgroup]
    simp [hp2, hemp]
  have hops := assembleOps_concat b2
  have hopsne : assembleOps b2 ≠ [] := by
    rw [hops, hbo2]
    intro hh
    have := congrArg List.length hh
    simp [hlen3] at this
  have hwc : writeCalls hAB l = .ok [("d", assembleOps b2)] := by
    unfold writeCalls
    rw [htx]
    cases hae : assembleOps b2 with
    | nil => exact absurd hae hopsne
    | cons x xs => simp [hae]
  rw [hwc]
  simp only [Except.map, List.map_cons, List.map_nil]
  rw [hops, hbo2]
  simp [List.countP_append, (countP_map_insertOne b2.add).1,
    (countP_map_insertOne b2.add).2, (countP_map_updateOne b2.update).1,
    (countP_map_updateOne b2.update).2, hlen3, hulen]

/-- C6 witness: the theorem applied to the batch itself (the identity
interleaving). -/
theorem c6_batch_coalescing_witness :
    Except.map (fun calls => calls.map (fun c =>
        (c.1, c.2.countP isInsertOp, c.2.countP isUpdateOneOp, c.2.length)))
      (writeCalls hAB txC6) = .ok [("d", 3, 2, 5)] :=
  c6_batch_coalescing txC6 (List.Perm.refl txC6)

/-! ## C7: mixin namespacing round trip -/

theorem splitOnCharAux_sep (sep : Char) (cs : List Char) (hs : sep ∉ cs) :
    ∀ (rest acc : List Char),
      splitOnCharAux sep (cs ++ sep :: rest) acc =
        (acc.reverse ++ cs) :: splitOnCharAux sep rest [] := by
  induction cs with
  | nil =>
      intro rest acc
      simp [splitOnCharAux]
  | cons c cs2 ih =>
      intro rest acc
      have hc : ¬c = sep := fun hh => hs (by simp [hh])
      have hs2 : sep ∉ cs2 := fun hh => hs (by simp [hh])
      simp only [List.cons_append, splitOnCharAux, if_neg hc, List.append_eq]
      rw [ih hs2 rest (c :: acc)]
      simp

/-- Splitting `M ++ "." ++ a` on dots peels off `M` when `M` is dot-free. -/
theorem splitString_dot_split (M a : String) (hdot : '.' ∉ M.data) :
    splitString '.' (M ++ "." ++ a) = M :: splitString '.' a := by
  unfold splitString splitOnChar
  have hdata : (M ++ "." ++ a).data = M.data ++ '.' :: a.data := by
    rw [String.data_append, String.data_append]
    simp
  rw [hdata, splitOnCharAux_sep '.' M.data hdot a.data []]
  rfl

theorem dot_mem_prefixed (M a : String) : '.' ∈ (M ++ "." ++ a).data := by
  rw [String.data_append, String.data_append]
  simp

theorem hasEntries_setField (x : Value) (k : String) (v : Value) :
    hasEntries (setField x k v) = true := by
  cases x with
  | ocons k1 v1 r =>
      simp only [setField]
      split <;> rfl
  | _ => rfl

/-- C7: a flat mixin-apply with attributes `{a: v}` for mixin `M` coalesces
the namespace-prefixed payload `{M.a: v, provenance}`; applying its `$set`
to any document whose `M` field is an object or absent and reading the
document back (digest-stripped, lookup-free) yields `D.M.a = v`.  An
empty patch still materializes `D.M` as a queryable (non-empty) object via
the injected `M.__mixin` sentinel. -/
theorem c7_mixin_namespacing_roundtrip :
    (∀ (M : String) (v : Value) (mb : String) (mo : Int) (d : Value),
      '.' ∉ M.data → M ≠ "modifiedBy" → M ≠ "modifiedOn" → M ≠ "%hash%" →
      (∀ w, getField d M = some w → (hasEntries w = true ∨ w = Value.onil)) →
      txMixin emptyBulk "1" M (objOf [("a", v)]) mb mo =
        .ok { emptyBulk with update := [("1",
          spreadMerge Value.onil (mixinFlatPayload M (objOf [("a", v)]) mb mo))] } ∧
      applySetEntries (spreadMerge Value.onil (mixinFlatPayload M (objOf [("a", v)]) mb mo)) d =
        some (setField (setField (setField d M
          (setField ((getField d M).getD Value.onil) "a" v))
          "modifiedBy" (.vstr mb)) "modifiedOn" (.vint mo)) ∧
      fieldByKey (stripHashDoc (setField (setField (setField d M
          (setField ((getField d M).getD Value.onil) "a" v))
          "modifiedBy" (.vstr mb)) "modifiedOn" (.vint mo))) (M ++ "." ++ "a") = some v) ∧
    (∀ (M : String) (mb : String) (mo : Int) (d : Value),
      '.' ∉ M.data → M ≠ "modifiedBy" → M ≠ "modifiedOn" → M ≠ "%hash%" →
      (∀ w, getField d M = some w → (hasEntries w = true ∨ w = Value.onil)) →
      txMixin emptyBulk "1" M Value.onil mb mo =
        .ok { emptyBulk with update := [("1",
          spreadMerge Value.onil (mixinFlatPayload M Value.onil mb mo))] } ∧
      applySetEntries (spreadMerge Value.onil (mixinFlatPayload M Value.onil mb mo)) d =
        some (setField (setField (setField d M
          (setField ((getField d M).getD Value.onil) "__mixin" (.vstr "true")))
          "modifiedBy" (.vstr mb)) "modifiedOn" (.vint mo)) ∧
      getField (stripHashDoc (setField (setField (setField d M
          (setField ((getField d M).getD Value.onil) "__mixin" (.vstr "true")))
          "modifiedBy" (.vstr mb)) "modifiedOn" (.vint mo))) M =
        some (setField ((getField d M).getD Value.onil) "__mixin" (.vstr "true")) ∧
      hasEntries (setField ((getField d M).getD Value.onil) "__mixin" (.vstr "true")) = true) := by
  have hMB : ('.' : Char) ∉ "modifiedBy".data := by decide
  have hMO : ('.' : Char) ∉ "modifiedOn".data := by decide
  constructor
  · intro M v mb mo d hdot hne1 hne2 hne3 hobj
    have hk1 : (M ++ "." ++ "a") ≠ "modifiedBy" :=
      str_ne_of_char _ _ '.' (dot_mem_prefixed M "a") hMB
    have hk2 : (M ++ "." ++ "a") ≠ "modifiedOn" :=
      str_ne_of_char _ _ '.' (dot_mem_prefixed M "a") hMO
    have hE : spreadMerge Value.onil (mixinFlatPayload M (objOf [("a", v)]) mb mo) =
        Value.ocons (M ++ "." ++ "a") v (Value.ocons "modifiedBy" (.vstr mb)
          (Value.ocons "modifiedOn" (.vint mo) Value.onil)) := by
      simp [mixinFlatPayload, translateMixinAttrs, hasEntries, tmaGo, objOf,
        spreadMerge, setField, hk1, hk2,
        show jsStartsWith "a" "$" = false from by decide]
    refine ⟨?_, ?_, ?_⟩
    · simp [txMixin, emptyBulk, mapGet, mapSet, mixinFlatPayload,
        show isOperator (objOf [("a", v)]) = false from by
          simp [isOperator, objOf, objKeys, show jsStartsWith "a" "$" = false from by decide]]
    · rw [hE]
      cases hget : getField d M with
      | none =>
          simp [applySetEntries, splitString_dot_split M "a" hdot, setPath, hget,
            show splitString '.' "a" = ["a"] from rfl,
            show splitString '.' "modifiedBy" = ["modifiedBy"] from rfl,
            show splitString '.' "modifiedOn" = ["modifiedOn"] from rfl]
      | some w =>
          rcases hobj w hget with hw | hw
          · simp [applySetEntries, splitString_dot_split M "a" hdot, setPath, hget, hw,
              show splitString '.' "a" = ["a"] from rfl,
              show splitString '.' "modifiedBy" = ["modifiedBy"] from rfl,
              show splitString '.' "modifiedOn" = ["modifiedOn"] from rfl]
          · subst hw
            simp [applySetEntries, splitString_dot_split M "a" hdot, setPath, hget,
              show splitString '.' "a" = ["a"] from rfl,
              show splitString '.' "modifiedBy" = ["modifiedBy"] from rfl,
              show splitString '.' "modifiedOn" = ["modifiedOn"] from rfl]
    · rw [show fieldByKey (stripHashDoc (setField (setField (setField d M
          (setField ((getField d M).getD Value.onil) "a" v))
          "modifiedBy" (.vstr mb)) "modifiedOn" (.vint mo))) (M ++ "." ++ "a") =
          getPath (stripHashDoc (setField (setField (setField d M
          (setField ((getField d M).getD Value.onil) "a" v))
          "modifiedBy" (.vstr mb)) "modifiedOn" (.vint mo))) [M, "a"] from by
        unfold fieldByKey
        rw [splitString_dot_split M "a" hdot]
        rfl]
      simp only [getPath, stripHashDoc]
      rw [getField_removeField_ne _ _ _ hne3,
        getField_setField_ne _ _ _ _ hne2,
        getField_setField_ne _ _ _ _ hne1,
        getField_setField_self]
      simp [getPath, getField_setField_self]
  · intro M mb mo d hdot hne1 hne2 hne3 hobj
    have hk1 : (M ++ "." ++ "__mixin") ≠ "modifiedBy" :=
      str_ne_of_char _ _ '.' (dot_mem_prefixed M "__mixin") hMB
    have hk2 : (M ++ "." ++ "__mixin") ≠ "modifiedOn" :=
      str_ne_of_char _ _ '.' (dot_mem_prefixed M "__mixin") hMO
    have hE : spreadMerge Value.onil (mixinFlatPayload M Value.onil mb mo) =
        Value.ocons (M ++ "." ++ "__mixin") (.vstr "true") (Value.ocons "modifiedBy" (.vstr mb)
          (Value.ocons "modifiedOn" (.vint mo) Value.onil)) := by
      simp [mixinFlatPayload, translateMixinAttrs, hasEntries, sentinelMixin, objOf,
        spreadMerge, setField, hk1, hk2]
    refine ⟨?_, ?_, ?_, hasEntries_setField _ _ _⟩
    · simp [txMixin, emptyBulk, mapGet, mapSet, mixinFlatPayload,
        show isOperator Value.onil = false from rfl]
    · rw [hE]
      cases hget : getField d M with
      | none =>
          simp [applySetEntries, splitString_dot_split M "__mixin" hdot, setPath, hget,
            show splitString '.' "__mixin" = ["__mixin"] from rfl,
            show splitString '.' "modifiedBy" = ["modifiedBy"] from rfl,
            show splitString '.' "modifiedOn" = ["modifiedOn"] from rfl]
      | some w =>
          rcases hobj w hget with hw | hw
          · simp [applySetEntries, splitString_dot_split M "__mixin" hdot, setPath, hget, hw,
              show splitString '.' "__mixin" = ["__mixin"] from rfl,
              show splitString '.' "modifiedBy" = ["modifiedBy"] from rfl,
              show splitString '.' "modifiedOn" = ["modifiedOn"] from rfl]
          · subst hw
            simp [applySetEntries, splitString_dot_split M "__mixin" hdot, setPath, hget,
              show splitString '.' "__mixin" = ["__mixin"] from rfl,
              show splitString '.' "modifiedBy" = ["modifiedBy"] from rfl,
              show splitString '.' "modifiedOn" = ["modifiedOn"] from rfl]
    · simp only [stripHashDoc]
      rw [getField_removeField_ne _ _ _ hne3,
        getField_setField_ne _ _ _ _ hne2,
        getField_setField_ne _ _ _ _ hne1,
        getField_setField_self]

/-! ## C9: the change-hash iterator -/

theorem bufSet_fresh (m : List (Value × String)) (k : Value) (v : String)
    (h : ∀ p ∈ m, p.1 ≠ k) : bufSet m k v = m ++ [(k, v)] := by
  induction m with
  | nil => rfl
  | cons p rest ih =>
      cases p with
      | mk k1 v1 =>
          have hk1 : ¬k1 = k := h (k1, v1) (by simp)
          simp only [bufSet, if_neg hk1, List.cons_append, List.cons.injEq, true_and]
          exact ih (fun p hp => h p (by simp [hp]))

theorem bufSet_length_le (m : List (Value × String)) (k : Value) (v : String) :
    (bufSet m k v).length ≤ m.length + 1 := by
  induction m with
  | nil => simp [bufSet]
  | cons p rest ih =>
      cases p with
      | mk k1 v1 =>
          by_cases hk : k1 = k
          · simp [bufSet, hk]
          · simp only [bufSet, if_neg hk, List.length_cons]
            omega

/-- The buffer/flush invariant of the phase-2 fold: every buffered entry
ends up in the concatenation of the flushed batches plus the final buffer,
the buffer never exceeds 1000 entries between steps, and every flushed
batch has at most 1001 entries. -/
theorem iterFold_inv (hf : Value → String) (sf : Value → Nat) :
    ∀ (ds : List Value) (buf : List (Value × String))
      (batches : List (List (Value × String))) (recs : List ChangeRecord),
      (∀ d ∈ ds, ∀ p ∈ buf, p.1 ≠ iterDocId d) →
      (ds.map iterDocId).Nodup →
      buf.length ≤ 1000 →
      (∀ b ∈ batches, b.length ≤ 1001) →
      ((ds.foldl (iterStep hf sf) (buf, batches, recs)).2.1.flatten ++
          (ds.foldl (iterStep hf sf) (buf, batches, recs)).1 =
        batches.flatten ++ buf ++ ds.map (iterEntry hf sf)) ∧
      ((ds.foldl (iterStep hf sf) (buf, batches, recs)).2.2 =
        recs ++ ds.map (iterRecord hf sf)) ∧
      ((ds.foldl (iterStep hf sf) (buf, batches, recs)).1.length ≤ 1000) ∧
      (∀ b ∈ (ds.foldl (iterStep hf sf) (buf, batches, recs)).2.1, b.length ≤ 1001) := by
  intro ds
  induction ds with
  | nil =>
      intro buf batches recs _ _ hlen hb
      exact ⟨by simp, by simp, hlen, hb⟩
  | cons d rest ih =>
      intro buf batches recs hfresh hnd hlen hb
      have hfr : ∀ p ∈ buf, p.1 ≠ iterDocId d := hfresh d (by simp)
      have hstep : bufSet buf (iterDocId d) (iterEntry hf sf d).2 =
          buf ++ [iterEntry hf sf d] :=
        bufSet_fresh buf _ _ hfr
      have hndc : (iterDocId d :: rest.map iterDocId).Nodup := by simpa using hnd
      have hnd2 : (rest.map iterDocId).Nodup := (List.nodup_cons.1 hndc).2
      have hdnm : iterDocId d ∉ rest.map iterDocId := (List.nodup_cons.1 hndc).1
      have hunf : iterStep hf sf (buf, batches, recs) d =
          (if (buf ++ [iterEntry hf sf d]).length > 1000 then
            ([], batches ++ [buf ++ [iterEntry hf sf d]],
              recs ++ [iterRecord hf sf d])
          else (buf ++ [iterEntry hf sf d], batches,
            recs ++ [iterRecord hf sf d])) := by
        rw [show iterStep hf sf (buf, batches, recs) d =
            (if (bufSet buf (iterDocId d) (iterEntry hf sf d).2).length > 1000 then
              ([], batches ++ [bufSet buf (iterDocId d) (iterEntry hf sf d).2],
                recs ++ [iterRecord hf sf d])
            else (bufSet buf (iterDocId d) (iterEntry hf sf d).2, batches,
              recs ++ [iterRecord hf sf d])) from rfl, hstep]
      rw [List.foldl_cons, hunf]
      by_cases hov : (buf ++ [iterEntry hf sf d]).length > 1000
      · rw [if_pos hov]
        have hblen : (buf ++ [iterEntry hf sf d]).length ≤ 1001 := by
          simp only [List.length_append]
          simp
          omega
        rcases ih [] (batches ++ [buf ++ [iterEntry hf sf d]])
            (recs ++ [iterRecord hf sf d])
            (by intro d2 _ p hp; simp at hp) hnd2 (by simp)
            (by
              intro b hbm
              rcases List.mem_append.1 hbm with hbm | hbm
              · exact hb b hbm
              · simp only [List.mem_singleton] at hbm
                subst hbm
                exact hblen) with
          ⟨hj, hr, hl, hbb⟩
        refine ⟨?_, ?_, hl, hbb⟩
        · rw [hj]
          simp [List.flatten_append]
        · rw [hr]
          simp
      · rw [if_neg hov]
        have hlen2 : (buf ++ [iterEntry hf sf d]).length ≤ 1000 := by
          omega
        rcases ih (buf ++ [iterEntry hf sf d]) batches
            (recs ++ [iterRecord hf sf d])
            (by
              intro d2 hd2 p hp
              rcases List.mem_append.1 hp with hp | hp
              · exact hfresh d2 (by simp [hd2]) p hp
              · simp only [List.mem_singleton] at hp
                subst hp
                intro hcontra
                refine hdnm ?_
                rw [show iterDocId d = iterDocId d2 from hcontra]
                exact List.mem_map_of_mem iterDocId hd2)
            hnd2 hlen2 hb with
          ⟨hj, hr, hl, hbb⟩
        refine ⟨?_, ?_, hl, hbb⟩
        · rw [hj]
          simp
        · rw [hr]
          simp

theorem iterStep_mkDocC9 (buf0 : List (Value × String))
    (batches0 : List (List (Value × String))) (recs0 : List ChangeRecord) (k : Nat) :
    iterStep (fun _ => "h") (fun _ => (1 : Nat)) (buf0, batches0, recs0) (mkDocC9 k) =
      (let buf := bufSet buf0 (Value.vint (Int.ofNat k)) "h|1"
       if buf.length > 1000 then
        ([], batches0 ++ [buf], recs0 ++ [⟨Value.vint (Int.ofNat k), "h", 1⟩])
       else (buf, batches0, recs0 ++ [⟨Value.vint (Int.ofNat k), "h", 1⟩])) := by
  show (if (bufSet buf0 ((getField (removeField (mkDocC9 k) "%hash%") "_id").getD .vnull)
      ("h" ++ "|" ++ natToHex 1)).length > 1000 then
      ([], batches0 ++ [bufSet buf0
          ((getField (removeField (mkDocC9 k) "%hash%") "_id").getD .vnull)
          ("h" ++ "|" ++ natToHex 1)],
        recs0 ++ [⟨(getField (removeField (mkDocC9 k) "%hash%") "_id").getD .vnull, "h", 1⟩])
    else (bufSet buf0 ((getField (removeField (mkDocC9 k) "%hash%") "_id").getD .vnull)
        ("h" ++ "|" ++ natToHex 1), batches0,
        recs0 ++ [⟨(getField (removeField (mkDocC9 k) "%hash%") "_id").getD .vnull, "h", 1⟩])) = _
  rw [show (getField (removeField (mkDocC9 k) "%hash%") "_id").getD .vnull =
    Value.vint (Int.ofNat k) from rfl]
  rw [show ("h" ++ "|" ++ natToHex 1 : String) = "h|1" from rfl]

theorem idxOf_append (c : Char) (cs rest : List Char) (h : c ∉ cs) :
    idxOf c (cs ++ c :: rest) = some cs.length := by
  induction cs with
  | nil => simp [idxOf]
  | cons x xs ih =>
      have hx : ¬x = c := fun hh => h (by simp [hh])
      have hxs : c ∉ xs := fun hh => h (by simp [hh])
      simp [idxOf, hx, ih hxs]

/-- The record of a stored `hash|sizeHex` digest is recovered by slicing at
the separator. -/
theorem parseDigestRecord_encode (id : Value) (hsh s : String)
    (h : '|' ∉ hsh.data) :
    parseDigestRecord id (hsh ++ "|" ++ s) = ⟨id, hsh, parseIntHex s⟩ := by
  unfold parseDigestRecord
  have hdata : (hsh ++ "|" ++ s).data = hsh.data ++ '|' :: s.data := by
    rw [String.data_append, String.data_append]
    simp
  rw [hdata, idxOf_append '|' hsh.data s.data h]
  have htake : (hsh.data ++ '|' :: s.data).take hsh.data.length = hsh.data := by
    simp
  have hdrop : (hsh.data ++ '|' :: s.data).drop (hsh.data.length + 1) = s.data := by
    rw [show hsh.data ++ '|' :: s.data = (hsh.data ++ ['|']) ++ s.data by simp,
      show hsh.data.length + 1 = (hsh.data ++ ['|']).length by simp]
    exact List.drop_left _ _
  simp only [htake, hdrop]

set_option maxRecDepth 8192 in
/-- C9 counterexample: 1001 digest-less documents produce a single
write-back flush of 1001 entries — the flush fires only once the buffer
*exceeds* 1000, so batches are not bounded by 1000. -/
theorem c9_counterexample_batch_1001 :
    ((runFindIter (fun _ => "h") (fun _ => 1) ((List.range 1001).map mkDocC9)
        false).flushBatches.map List.length) = [1001] := by
  have hfold : ∀ k, k ≤ 1000 →
      ((List.range k).map mkDocC9).foldl (iterStep (fun _ => "h") (fun _ => 1)) ([], [], []) =
        ((List.range k).map (fun i => (Value.vint (Int.ofNat i), "h|1")), [],
          (List.range k).map (fun i => (⟨Value.vint (Int.ofNat i), "h", 1⟩ : ChangeRecord))) := by
    intro k
    induction k with
    | zero => intro _; rfl
    | succ k ih =>
        intro hk
        rw [List.range_succ, List.map_append, List.foldl_append, ih (by omega)]
        simp only [List.map_cons, List.map_nil, List.foldl_cons, List.foldl_nil]
        have hfresh : ∀ p ∈ (List.range k).map
            (fun i => (Value.vint (Int.ofNat i), "h|1")), p.1 ≠ Value.vint (Int.ofNat k) := by
          intro p hp
          rcases List.mem_map.1 hp with ⟨i, hi, rfl⟩
          simp only [List.mem_range] at hi
          intro hc
          have h2 : Int.ofNat i = Int.ofNat k := Value.vint.inj hc
          have h3 : i = k := Int.ofNat.inj h2
          omega
        have hset := bufSet_fresh _ (Value.vint (Int.ofNat k)) "h|1" hfresh
        rw [iterStep_mkDocC9]
        simp only [hset]
        have hlen : ((List.range k).map (fun i => (Value.vint (Int.ofNat i), "h|1")) ++
            [(Value.vint (Int.ofNat k), "h|1")]).length = k + 1 := by
          simp
        rw [if_neg (by omega : ¬((List.range k).map
            (fun i => (Value.vint (Int.ofNat i), "h|1")) ++
            [(Value.vint (Int.ofNat k), "h|1")]).length > 1000)]
        simp
  have hunhashed : ∀ d ∈ (List.range 1001).map mkDocC9, isHashed d = false := by
    intro d hd
    rcases List.mem_map.1 hd with ⟨i, _, rfl⟩
    rfl
  unfold runFindIter
  rw [if_neg (by simp)]
  have hp1 : ((List.range 1001).map mkDocC9).filter isHashed = [] := by
    rw [List.filter_eq_nil_iff]
    intro a ha
    simp [hunhashed a ha]
  have hp2 : ((List.range 1001).map mkDocC9).filter (fun d => !isHashed d) =
      (List.range 1001).map mkDocC9 := by
    rw [List.filter_eq_self]
    intro a ha
    simp [hunhashed a ha]
  simp only [hp1, hp2]
  rw [show (1001 : Nat) = 1000 + 1 from rfl, List.range_succ, List.map_append,
    List.foldl_append, hfold 1000 (by omega)]
  simp only [List.map_cons, List.map_nil, List.foldl_cons, List.foldl_nil]
  have hfresh : ∀ p ∈ (List.range 1000).map
      (fun i => (Value.vint (Int.ofNat i), "h|1")), p.1 ≠ Value.vint (Int.ofNat 1000) := by
    intro p hp
    rcases List.mem_map.1 hp with ⟨i, hi, rfl⟩
    simp only [List.mem_range] at hi
    intro hc
    have h2 : Int.ofNat i = Int.ofNat 1000 := Value.vint.inj hc
    have h3 : i = 1000 := Int.ofNat.inj h2
    omega
  have hset := bufSet_fresh _ (Value.vint (Int.ofNat 1000)) "h|1" hfresh
  rw [iterStep_mkDocC9]
  simp only [hset]
  rw [if_pos (by simp : ((List.range 1000).map
      (fun i => (Value.vint (Int.ofNat i), "h|1")) ++
      [(Value.vint (Int.ofNat 1000), "h|1")]).length > 1000)]
  simp

theorem runFindIter_all_hashed (hf : Value → String) (sf : Value → Nat)
    (docs : List Value) (h : ∀ d ∈ docs, isHashed d = true) :
    runFindIter hf sf docs false =
      ⟨docs.map (fun d =>
        parseDigestRecord ((getField d "_id").getD .vnull) ((digestStrOf d).getD "")), []⟩ := by
  have h1 : docs.filter isHashed = docs := by
    rw [List.filter_eq_self]
    intro a ha
    simp [h a ha]
  have h2 : docs.filter (fun d => !isHashed d) = [] := by
    rw [List.filter_eq_nil_iff]
    intro a ha
    simp [h a ha]
  unfold runFindIter
  rw [if_neg (by simp)]
  simp only [h1, h2, List.foldl_nil]
  simp

theorem runFindIter_all_unhashed (hf : Value → String) (sf : Value → Nat)
    (docs : List Value) (h : ∀ d ∈ docs, isHashed d = false)
    (hnd : (docs.map iterDocId).Nodup) :
    (runFindIter hf sf docs false).records = docs.map (iterRecord hf sf) ∧
    (runFindIter hf sf docs false).flushBatches.flatten = docs.map (iterEntry hf sf) ∧
    ∀ b ∈ (runFindIter hf sf docs false).flushBatches, b.length ≤ 1001 := by
  have h1 : docs.filter isHashed = [] := by
    rw [List.filter_eq_nil_iff]
    intro a ha
    simp [h a ha]
  have h2 : docs.filter (fun d => !isHashed d) = docs := by
    rw [List.filter_eq_self]
    intro a ha
    simp [h a ha]
  rcases iterFold_inv hf sf docs [] [] []
      (by intro d _ p hp; simp at hp) hnd (by simp) (by intro b hb; simp at hb) with
    ⟨hj, hr, hl, hbb⟩
  simp only [List.flatten_nil, List.nil_append] at hj
  simp only [List.nil_append] at hr
  have hrun : runFindIter hf sf docs false =
      ⟨(docs.foldl (iterStep hf sf) ([], [], [])).2.2,
       if (docs.foldl (iterStep hf sf) ([], [], [])).1.isEmpty then
         (docs.foldl (iterStep hf sf) ([], [], [])).2.1
       else (docs.foldl (iterStep hf sf) ([], [], [])).2.1 ++
         [(docs.foldl (iterStep hf sf) ([], [], [])).1]⟩ := by
    unfold runFindIter
    rw [if_neg (by simp)]
    simp only [h1, h2]
    simp
  rw [hrun]
  refine ⟨hr, ?_, ?_⟩
  · by_cases he : (docs.foldl (iterStep hf sf) ([], [], [])).1.isEmpty
    · rw [if_pos he]
      have he2 : (docs.foldl (iterStep hf sf) ([], [], [])).1 = [] := by
        simpa [List.isEmpty_iff] using he
      rw [he2, List.append_nil] at hj
      exact hj
    · rw [if_neg he]
      simp only [List.flatten_append, List.flatten_cons, List.flatten_nil,
        List.append_nil]
      exact hj
  · intro b hb
    by_cases he : (docs.foldl (iterStep hf sf) ([], [], [])).1.isEmpty
    · rw [if_pos he] at hb
      exact hbb b hb
    · rw [if_neg he] at hb
      rcases List.mem_append.1 hb with hb | hb
      · exact hbb b hb
      · simp only [List.mem_singleton] at hb
        subst hb
        omega

/-- C9 (amended): a hashed document's record is parsed from the stored
`hash|sizeHex` digest by slicing at the separator, with no recomputation
and no write-back; a digest-less document gets a freshly computed record
and a buffered write-back entry; the buffer is flushed once it *exceeds*
1000 entries — so flushed batches reach 1001 entries, not 1000 — and is
unconditionally flushed on close, so every buffered entry ends up in some
flushed batch. -/
theorem c9_amended_digest_iterator :
    (∀ (hf : Value → String) (sf : Value → Nat) (docs : List Value),
      (∀ d ∈ docs, isHashed d = true) →
      runFindIter hf sf docs false =
        ⟨docs.map (fun d =>
          parseDigestRecord ((getField d "_id").getD .vnull) ((digestStrOf d).getD "")),
         []⟩) ∧
    (∀ (id : Value) (hsh s : String), '|' ∉ hsh.data →
      parseDigestRecord id (hsh ++ "|" ++ s) = ⟨id, hsh, parseIntHex s⟩) ∧
    (∀ (hf : Value → String) (sf : Value → Nat) (docs : List Value),
      (∀ d ∈ docs, isHashed d = false) →
      (docs.map iterDocId).Nodup →
      (runFindIter hf sf docs false).records = docs.map (iterRecord hf sf) ∧
      (runFindIter hf sf docs false).flushBatches.flatten = docs.map (iterEntry hf sf) ∧
      ∀ b ∈ (runFindIter hf sf docs false).flushBatches, b.length ≤ 1001) :=
  ⟨fun hf sf docs h => runFindIter_all_hashed hf sf docs h,
   fun id hsh s h => parseDigestRecord_encode id hsh s h,
   fun hf sf docs h hnd => runFindIter_all_unhashed hf sf docs h hnd⟩

/-- C9 witness: one hashed document is parsed from its stored digest with
no flush; the slicing equation at `ab|2`; one digest-less document's entry
is flushed on close. -/
theorem c9_digest_iterator_witness :
    runFindIter (fun _ => "h") (fun _ => (1 : Nat))
        [Value.ocons "_id" (.vstr "1") (.ocons "%hash%" (.vstr "ab|2") .onil)] false =
      ⟨[parseDigestRecord
          ((getField (Value.ocons "_id" (.vstr "1")
            (.ocons "%hash%" (.vstr "ab|2") .onil)) "_id").getD .vnull)
          ((digestStrOf (Value.ocons "_id" (.vstr "1")
            (.ocons "%hash%" (.vstr "ab|2") .onil))).getD "")], []⟩ ∧
    parseDigestRecord .vnull ("ab" ++ "|" ++ "2") = ⟨.vnull, "ab", parseIntHex "2"⟩ ∧
    (runFindIter (fun _ => "h") (fun _ => (1 : Nat)) [mkDocC9 0] false).flushBatches.flatten =
      [mkDocC9 0].map (iterEntry (fun _ => "h") (fun _ => (1 : Nat))) :=
  ⟨c9_amended_digest_iterator.1 (fun _ => "h") (fun _ => (1 : Nat))
      [Value.ocons "_id" (.vstr "1") (.ocons "%hash%" (.vstr "ab|2") .onil)] (by decide),
   c9_amended_digest_iterator.2.1 .vnull "ab" "2" (by decide),
   (c9_amended_digest_iterator.2.2 (fun _ => "h") (fun _ => (1 : Nat))
      [mkDocC9 0] (by decide) (by decide)).2.1⟩

/-- C7 witness: the round trip at mixin `M`, value 1, on the empty
document. -/
theorem c7_mixin_roundtrip_witness :
    fieldByKey (stripHashDoc (setField (setField (setField Value.onil "M"
        (setField ((getField Value.onil "M").getD Value.onil) "a" (.vint 1)))
        "modifiedBy" (.vstr "u")) "modifiedOn" (.vint 5))) ("M" ++ "." ++ "a") =
      some (.vint 1) ∧
    hasEntries (setField ((getField Value.onil "M").getD Value.onil) "__mixin"
      (.vstr "true")) = true :=
  ⟨(c7_mixin_namespacing_roundtrip.1 "M" (.vint 1) "u" 5 Value.onil (by decide)
      (by decide) (by decide) (by decide) (fun w hw => by simp [getField] at hw)).2.2,
   (c7_mixin_namespacing_roundtrip.2 "M" "u" 5 Value.onil (by decide)
      (by decide) (by decide) (by decide) (fun w hw => by simp [getField] at hw)).2.2.2⟩

end Storage
